import Mathlib

/-
  Verification development for the WeensyOS-style kernel in src/Assign4/kernel.c:
  physical page ledger, two-level virtual address translation, process table,
  process lifecycle operations (fork, exit), the page-allocate syscall handler
  and the round-robin scheduler.

  The embedding is a shallow one: the kernel state (the pageinfo ledger, the
  process table, the page-table pages and the data pages of physical memory)
  becomes a Lean structure, and each C function becomes a pure function from
  states to states.  A physical page is used by the kernel either as a
  first-level table, as a second-level table, or as a data page; the three
  views are kept in separate maps of the state, matching the disjoint use of
  pages in the source (the theorems carry hypotheses that rule out aliased
  use, such as a table page being simultaneously mapped as data).

  Machine integers: refcounts and owners are int8_t in the source and page
  numbers are machine words; they are modelled as Int / Nat because no claim
  exercises wraparound (refcounts stay far below 127 under the hypotheses
  used).  The pageinfo array is modelled as a total function on Int so that
  the out-of-bounds index produced by fork on an unmapped address (see the
  C8 theorems) is observable as an access at a negative index.
-/

/-- Modelled from the spec: the fixed page size of the machine.  The header
kernel.h that defines it is not among the sources; the layout comment in
kernel.c and the 0xFFF alignment mask in physical_page_alloc fix it at 4096. -/
def PAGESIZE : Nat := 4096

/-- Modelled from the spec: the size of the physical address space (kernel.h
is not among the sources; the fixed, small physical space of the spec). -/
def MEMSIZE_PHYSICAL : Nat := 0x200000

/-- Modelled from the spec: number of physical pages, PAGENUMBER(MEMSIZE_PHYSICAL). -/
def NPAGES : Nat := 512

/-- Modelled from the spec: the virtual address space ceiling (kernel.h). -/
def MEMSIZE_VIRTUAL : Nat := 0x300000

/-- Start of the per-process private region, from the layout comment in kernel.c. -/
def PROC_START_ADDR : Nat := 0x100000

/-- Modelled from the spec: the fixed size of the process table (kernel.h). -/
def NPROC : Nat := 16

/-- Modelled from the spec: entries per page-table node (kernel.h). -/
def PAGETABLE_NENTRIES : Nat := 1024

/-- Present bit of a page-table entry. -/
def PTE_P : Nat := 1

/-- Writable bit of a page-table entry. -/
def PTE_W : Nat := 2

/-- User-accessible bit of a page-table entry. -/
def PTE_U : Nat := 4

/-- Page owner constant: this page is free. -/
def PO_FREE : Int := 0

/-- Page owner constant: reserved memory. -/
def PO_RESERVED : Int := -1

/-- Page owner constant: used by the kernel. -/
def PO_KERNEL : Int := -2

/-- PAGENUMBER from kernel.h: physical address to physical page number. -/
def PAGENUMBER (addr : Nat) : Nat := addr / PAGESIZE

/-- PAGEADDRESS from kernel.h: physical page number to physical address. -/
def PAGEADDRESS (pn : Nat) : Nat := pn * PAGESIZE

/-- Process lifecycle states, from kernel.h (P_FREE, P_RUNNABLE, P_BLOCKED, P_BROKEN). -/
inductive procstate where
  | P_FREE : procstate
  | P_RUNNABLE : procstate
  | P_BLOCKED : procstate
  | P_BROKEN : procstate
deriving DecidableEq

open procstate

/-- Saved register set of a process.  Only the return-value register reg_eax is
interpreted by the kernel code under study; the remaining registers are
abstracted into a single opaque word that is copied around wholesale, which
matches the whole-struct copies the source performs. -/
structure x86_registers where
  reg_eax : Int
  reg_rest : Nat
deriving DecidableEq

/-- One entry of the pageinfo ledger: owner and reference count (int8_t in the source). -/
structure physical_pageinfo where
  owner : Int
  refcount : Int
deriving DecidableEq

/-- A process descriptor, from kernel.h: pid, lifecycle state, translation root
(physical address of the first-level page-table page) and saved registers. -/
structure proc where
  p_pid : Int
  p_state : procstate
  p_pagetable : Nat
  p_registers : x86_registers
deriving DecidableEq

/-- Result of a virtual address lookup, vamapping from kernel.h: physical page
number (-1 when unmapped), physical address, permission bits. -/
structure vamapping where
  pn : Int
  pa : Nat
  perm : Nat
deriving DecidableEq

/-- The kernel state: the pageinfo ledger (total over Int; real entries live at
indices 0 <= pn < NPAGES), the process table, the first-level and second-level
page-table pages of physical memory (indexed by physical page number and entry
index), the abstract contents of data pages (one opaque word per page, copied
wholesale by the page-granular memcpy in fork), and the index of the current
process. -/
structure KState where
  pageinfo : Int → physical_pageinfo
  processes : Nat → proc
  l1 : Nat → Nat → Nat
  l2 : Nat → Nat → Nat
  data : Nat → Nat
  current : Nat

/-- Pointwise update of the ledger. -/
def upd1 (f : Int → physical_pageinfo) (i : Int) (v : physical_pageinfo) :
    Int → physical_pageinfo :=
  fun j => if j = i then v else f j

/-- Pointwise update of the process table. -/
def updP (f : Nat → proc) (i : Nat) (v : proc) : Nat → proc :=
  fun j => if j = i then v else f j

/-- Pointwise update of a data-page map. -/
def updN (f : Nat → Nat) (i : Nat) (v : Nat) : Nat → Nat :=
  fun j => if j = i then v else f j

/-- Update of one entry of one page-table page. -/
def upd2 (f : Nat → Nat → Nat) (i j v : Nat) : Nat → Nat → Nat :=
  fun a b => if a = i ∧ b = j then v else f a b

/-- Replacement of a whole page-table page. -/
def updRow (f : Nat → Nat → Nat) (i : Nat) (r : Nat → Nat) : Nat → Nat → Nat :=
  fun a => if a = i then r else f a

/-- Modelled from the spec: virtual_memory_lookup of the external translation
layer (k-hardware.c is not among the sources).  Walks the first-level table,
then the second-level table; an absent first level yields entry 0.  The
unmapped sentinel carries pn = -1, which kernel.c itself relies on in
memshow_virtual (the test vam.pn < 0); pa combines the entry address bits with
the page offset of va, and perm is the low twelve bits of the entry. -/
def virtual_memory_lookup (s : KState) (pt va : Nat) : vamapping :=
  let pe1 := s.l1 (PAGENUMBER pt) (PAGENUMBER va / PAGETABLE_NENTRIES)
  let pe := if pe1 % 2 = 1 then s.l2 (PAGENUMBER pe1) (PAGENUMBER va % PAGETABLE_NENTRIES) else 0
  { pn := if pe % 2 = 1 then (PAGENUMBER pe : Int) else -1,
    pa := PAGEADDRESS (PAGENUMBER pe) + va % PAGESIZE,
    perm := pe % PAGESIZE }

/-- Modelled from the spec: one page-granular installment done by the external
virtual_memory_map.  The second-level table is reached through the first-level
entry for va, and its entry for va becomes the page-aligned physical address
combined with the low twelve permission bits. -/
def vmap_page (s : KState) (pt va pa perm : Nat) : KState :=
  let pe1 := s.l1 (PAGENUMBER pt) (PAGENUMBER va / PAGETABLE_NENTRIES)
  let e := PAGEADDRESS (PAGENUMBER pa) + perm % PAGESIZE
  { s with l2 := upd2 s.l2 (PAGENUMBER pe1) (PAGENUMBER va % PAGETABLE_NENTRIES) e }

/-- Modelled from the spec: virtual_memory_map installs sz / PAGESIZE
page-granular entries starting at va, pa. -/
def virtual_memory_map (s : KState) (pt va pa sz perm : Nat) : KState :=
  (List.range (sz / PAGESIZE)).foldl
    (fun t k => vmap_page t pt (va + PAGEADDRESS k) (pa + PAGEADDRESS k) perm) s

/-- find_free_process_slot from kernel.c: first slot in 1 .. NPROC-1 whose
state is P_FREE, or -1. -/
def find_free_process_slot (s : KState) : Int :=
  match (List.range' 1 (NPROC - 1)).find? (fun i => decide ((s.processes i).p_state = P_FREE)) with
  | some i => (i : Int)
  | none => -1

/-- Ledger entry at a nonnegative page number. -/
def pageinfoAt (s : KState) (i : Nat) : physical_pageinfo :=
  s.pageinfo (i : Int)

/-- The test of the scan in find_free_physical_page: owner 0 and refcount 0. -/
def isFreePage (s : KState) (i : Nat) : Bool :=
  decide ((pageinfoAt s i).owner = 0) && decide ((pageinfoAt s i).refcount = 0)

/-- find_free_physical_page from kernel.c: address of the first physical page
whose ledger entry has owner 0 and refcount 0, or none. -/
def find_free_physical_page (s : KState) : Option Nat :=
  ((List.range NPAGES).find? (isFreePage s)).map PAGEADDRESS

/-- physical_page_alloc from kernel.c: fails with -1 when addr is misaligned,
out of physical range, or its page has nonzero refcount; otherwise sets the
entry to refcount 1 with the given owner and returns 0. -/
def physical_page_alloc (s : KState) (addr : Nat) (owner : Int) : KState × Int :=
  if addr % PAGESIZE ≠ 0 ∨ MEMSIZE_PHYSICAL ≤ addr ∨
      (s.pageinfo (PAGENUMBER addr : Int)).refcount ≠ 0 then
    (s, -1)
  else
    ({ s with pageinfo := upd1 s.pageinfo (PAGENUMBER addr : Int) ⟨owner, 1⟩ }, 0)

/-- alloc_free_page from kernel.c: find a free physical page and allocate it to
the owner; none on failure. -/
def alloc_free_page (s : KState) (owner : Int) : KState × Option Nat :=
  match find_free_physical_page s with
  | none => (s, none)
  | some pg_addr =>
    let r := physical_page_alloc s pg_addr owner
    if r.2 = -1 then (r.1, none) else (r.1, some pg_addr)

/-- copy_pagetable from kernel.c: allocate a first-level and a second-level
page, zero them, point entry 0 of the new first level at the new second level
with permission PTE_P, PTE_W, PTE_U, and copy the entries of the source table
below PROC_START_ADDR into the new second level.  The copy reads the source
second level after the zeroing, exactly as the memcpy in the source does. -/
def copy_pagetable (s : KState) (pt : Nat) (owner : Int) : KState × Option Nat :=
  match alloc_free_page s owner with
  | (s1, none) => (s1, none)
  | (s1, some pgtl1_addr) =>
    match alloc_free_page s1 owner with
    | (s2, none) => (s2, none)
    | (s2, some pgtl2_addr) =>
      let s3 := { s2 with
        l1 := updRow s2.l1 (PAGENUMBER pgtl1_addr) (fun _ => 0),
        l2 := updRow s2.l2 (PAGENUMBER pgtl2_addr) (fun _ => 0) }
      let s4 := { s3 with
        l1 := upd2 s3.l1 (PAGENUMBER pgtl1_addr) 0
          (PAGEADDRESS (PAGENUMBER pgtl2_addr) + (PTE_P + PTE_W + PTE_U)) }
      let kptl20 := PAGENUMBER (s4.l1 (PAGENUMBER pt) 0)
      let s5 := { s4 with
        l2 := updRow s4.l2 (PAGENUMBER pgtl2_addr)
          (fun j => if j < PAGENUMBER PROC_START_ADDR then s4.l2 kptl20 j else 0) }
      (s5, some pgtl1_addr)

/-- The per-process test of the find_page_owner scan: the process is RUNNABLE
and the lookup of some virtual page below PAGEADDRESS(NPAGES) yields a
physical address equal to that of the given page. -/
def ownerScanHit (s : KState) (pagenum pid : Nat) : Bool :=
  decide ((s.processes pid).p_state = P_RUNNABLE) &&
  (List.range NPAGES).any (fun k =>
    decide ((virtual_memory_lookup s ((s.processes pid).p_pagetable)
      (PAGEADDRESS k)).pa = PAGEADDRESS pagenum))

/-- find_page_owner from kernel.c: first process (pid 1 upward) passing the
scan test; -1 if none. -/
def find_page_owner (s : KState) (pagenum : Nat) : Int :=
  match (List.range' 1 (NPROC - 1)).find? (ownerScanHit s pagenum) with
  | some pid => (pid : Int)
  | none => -1

/-- One iteration of the reclamation loop of free_current_process for ledger
entry i, given the pid of the exiting process.  The source calls
find_page_owner twice in the reassignment branch; both calls run on the same
state and return the same value, so a single call is used. -/
def freeEntryStep (pid : Int) (s : KState) (i : Nat) : KState :=
  if (s.pageinfo (i : Int)).owner = pid then
    let rc := (s.pageinfo (i : Int)).refcount
    if 1 < rc then
      let s1 := { s with pageinfo := upd1 s.pageinfo (i : Int) ⟨pid, rc - 1⟩ }
      let new_owner := find_page_owner s1 i
      if new_owner ≠ -1 then
        { s1 with pageinfo := upd1 s1.pageinfo (i : Int) ⟨new_owner, rc - 1⟩ }
      else
        { s1 with pageinfo := upd1 s1.pageinfo (i : Int) ⟨PO_FREE, 0⟩ }
    else if rc = 1 then
      { s with pageinfo := upd1 s.pageinfo (i : Int) ⟨PO_FREE, rc - 1⟩ }
    else
      { s with pageinfo := upd1 s.pageinfo (i : Int) ⟨PO_FREE, rc⟩ }
  else s

/-- Sets the lifecycle state of one process slot. -/
def setPState (s : KState) (slot : Nat) (st : procstate) : KState :=
  let p := { s.processes slot with p_state := st }
  { s with processes := updP s.processes slot p }

/-- The reclamation loop of free_current_process: walk every ledger entry and
apply the per-entry reclamation step for the given owner pid. -/
def free_loop (s : KState) (pid : Int) : KState :=
  (List.range NPAGES).foldl (freeEntryStep pid) s

/-- free_current_process from kernel.c: block the process, walk every ledger
entry it owns and reclaim or hand it over, then mark the process free. -/
def free_current_process (s : KState) (slot : Nat) : KState :=
  let sB := setPState s slot P_BLOCKED
  let sL := free_loop sB ((sB.processes slot).p_pid)
  setPState sL slot P_FREE

/-- The page-aligned virtual addresses of the private region, in the order the
fork loop visits them: PROC_START_ADDR, PROC_START_ADDR + PAGESIZE, ...,
MEMSIZE_VIRTUAL - PAGESIZE. -/
def privateVAs : List Nat :=
  (List.range ((MEMSIZE_VIRTUAL - PROC_START_ADDR) / PAGESIZE)).map
    (fun k => PROC_START_ADDR + PAGEADDRESS k)

/-- The copy branch of the fork loop body: copy the page contents (the memcpy
of the source, modelled as a whole-page content copy) into the fresh child
page, then map it into the child table with the parent permission.  vam is the
parent lookup taken before the allocation, as in the source. -/
def forkCopyStep (s1 : KState) (slot : Nat) (va : Nat) (vam : vamapping)
    (chld_page : Nat) : KState :=
  let copied := s1.data (PAGENUMBER vam.pa)
  let s2 := { s1 with data := updN s1.data (PAGENUMBER chld_page) copied }
  virtual_memory_map s2 ((s2.processes slot).p_pagetable) va chld_page PAGESIZE vam.perm

/-- The sharing branch of the fork loop body: replay the parent entry into the
child table and increment pageinfo[vam.pn].refcount (vam.pn is -1 for an
unmapped address, so the bump lands at ledger index -1 then, as in the
source). -/
def forkShareStep (s : KState) (slot : Nat) (va : Nat) : KState :=
  let vam := virtual_memory_lookup s ((s.processes s.current).p_pagetable) va
  let s1 := virtual_memory_map s ((s.processes slot).p_pagetable) va vam.pa
      PAGESIZE vam.perm
  let bumped : physical_pageinfo :=
    ⟨(s1.pageinfo vam.pn).owner, (s1.pageinfo vam.pn).refcount + 1⟩
  { s1 with pageinfo := upd1 s1.pageinfo vam.pn bumped }

/-- The per-address loop of fork_process from kernel.c.  For each private
virtual address: a writable parent mapping is copied into a freshly allocated
page, anything else is shared by mapping the same entry and bumping the
refcount at ledger index vam.pn.  Returns false together with the state
produced by tearing the child down when an allocation fails. -/
def forkLoop (s : KState) (chld_pid : Int) (slot : Nat) : List Nat → KState × Bool
  | [] => (s, true)
  | va :: rest =>
    let vam := virtual_memory_lookup s ((s.processes s.current).p_pagetable) va
    if vam.perm ≠ 0 ∧ vam.perm / 2 % 2 = 1 then
      match alloc_free_page s chld_pid with
      | (s1, none) => (free_current_process s1 slot, false)
      | (s1, some chld_page) =>
        forkLoop (forkCopyStep s1 slot va vam chld_page) chld_pid slot rest
    else
      forkLoop (forkShareStep s slot va) chld_pid slot rest

/-- fork_process from kernel.c: find a free slot, clone the current page table
for the child, copy or share every private page, then copy the registers with
reg_eax 0 and mark the child runnable.  Returns the new state and the value
returned to the caller (-1 on failure, the child pid on success). -/
def fork_process (s : KState) : KState × Int :=
  let chld_pid := find_free_process_slot s
  if chld_pid = -1 then (s, chld_pid)
  else
    let slot := chld_pid.toNat
    match copy_pagetable s ((s.processes s.current).p_pagetable) chld_pid with
    | (s1, none) => (free_current_process s1 slot, -1)
    | (s1, some chld_pgtb) =>
      let pC := { s1.processes slot with p_pagetable := chld_pgtb, p_pid := chld_pid }
      let s2 := { s1 with processes := updP s1.processes slot pC }
      match forkLoop s2 chld_pid slot privateVAs with
      | (s3, false) => (s3, -1)
      | (s3, true) =>
        let regs := { (s3.processes s3.current).p_registers with reg_eax := 0 }
        let pR := { s3.processes slot with p_registers := regs, p_state := P_RUNNABLE }
        let s4 := { s3 with processes := updP s3.processes slot pR }
        (s4, chld_pid)

/-- Writes a value into the saved reg_eax of the given process slot. -/
def setEax (s : KState) (cur : Nat) (v : Int) : KState :=
  let regs := { (s.processes cur).p_registers with reg_eax := v }
  let p := { s.processes cur with p_registers := regs }
  { s with processes := updP s.processes cur p }

/-- The INT_SYS_PAGE_ALLOC case of exception from kernel.c, together with the
prologue that copies the trapping registers into the current process.  Note
the source allocates a page before validating the address; on a validation
failure the allocated page is kept by the caller but never mapped, and -1 is
placed in reg_eax.  The address is the value of the caller reg_eax read as an
unsigned machine word. -/
def exception_sys_page_alloc (s : KState) (reg : x86_registers) : KState :=
  let cur := s.current
  let pIn := { s.processes cur with p_registers := reg }
  let s0 := { s with processes := updP s.processes cur pIn }
  let addr := (reg.reg_eax % (2 ^ 32 : Int)).toNat
  let a := alloc_free_page s0 ((s0.processes cur).p_pid)
  match a.2 with
  | some p_addr =>
    if addr % PAGESIZE = 0 ∧ PROC_START_ADDR ≤ addr ∧ addr < MEMSIZE_VIRTUAL then
      let s2 := virtual_memory_map a.1 ((a.1.processes cur).p_pagetable) addr p_addr
          PAGESIZE (PTE_P + PTE_W + PTE_U)
      setEax s2 cur 0
    else
      setEax a.1 cur (-1)
  | none =>
    setEax a.1 cur (-1)

/-- The scan of schedule from kernel.c, with the number of remaining probes
made explicit: starting from the pid after the given one, step cyclically
through the process table and return the first runnable slot; none when the
given number of probes finds nothing.  The endless C loop corresponds to
unbounded fuel, and one full round of NPROC probes already decides the
outcome (the scan is periodic with period NPROC). -/
def scheduleAux (s : KState) : Int → Nat → Option Int
  | _, 0 => none
  | pid, fuel + 1 =>
    let pid1 := (pid + 1) % (NPROC : Int)
    if (s.processes pid1.toNat).p_state = P_RUNNABLE then some pid1
    else scheduleAux s pid1 fuel

/-- The scheduling decision of schedule from kernel.c: scan starting after the
pid of the current process. -/
def schedule_pick (s : KState) (fuel : Nat) : Option Int :=
  scheduleAux s ((s.processes s.current).p_pid) fuel


set_option maxRecDepth 100000

/-
  Basic lemmas about the pointwise updaters and the page arithmetic.
-/

theorem upd1_self (f : Int → physical_pageinfo) (i : Int) (v : physical_pageinfo) :
    upd1 f i v i = v := by
  simp [upd1]

theorem upd1_other (f : Int → physical_pageinfo) (i : Int) (v : physical_pageinfo)
    (j : Int) (h : j ≠ i) : upd1 f i v j = f j := by
  simp [upd1, h]

theorem updP_self (f : Nat → proc) (i : Nat) (v : proc) : updP f i v i = v := by
  simp [updP]

theorem updP_other (f : Nat → proc) (i : Nat) (v : proc) (j : Nat) (h : j ≠ i) :
    updP f i v j = f j := by
  simp [updP, h]

theorem updN_self (f : Nat → Nat) (i : Nat) (v : Nat) : updN f i v i = v := by
  simp [updN]

theorem updN_other (f : Nat → Nat) (i : Nat) (v : Nat) (j : Nat) (h : j ≠ i) :
    updN f i v j = f j := by
  simp [updN, h]

theorem upd2_self (f : Nat → Nat → Nat) (i j v : Nat) : upd2 f i j v i j = v := by
  simp [upd2]

theorem upd2_other (f : Nat → Nat → Nat) (i j v a b : Nat) (h : ¬(a = i ∧ b = j)) :
    upd2 f i j v a b = f a b := by
  simp only [upd2, if_neg h]

theorem updRow_self (f : Nat → Nat → Nat) (i : Nat) (r : Nat → Nat) : updRow f i r i = r := by
  simp [updRow]

theorem updRow_other (f : Nat → Nat → Nat) (i : Nat) (r : Nat → Nat) (a : Nat) (h : a ≠ i) :
    updRow f i r a = f a := by
  simp [updRow, h]

theorem PAGENUMBER_PAGEADDRESS (i : Nat) : PAGENUMBER (PAGEADDRESS i) = i := by
  simp [PAGENUMBER, PAGEADDRESS, PAGESIZE]

theorem PAGEADDRESS_mod (i : Nat) : PAGEADDRESS i % PAGESIZE = 0 := by
  simp [PAGEADDRESS, PAGESIZE]

theorem PAGEADDRESS_lt_physical (i : Nat) (h : i < NPAGES) :
    PAGEADDRESS i < MEMSIZE_PHYSICAL := by
  unfold PAGEADDRESS PAGESIZE MEMSIZE_PHYSICAL
  unfold NPAGES at h
  omega

/-
  Specification lemmas for the ledger allocator.
-/

theorem physical_page_alloc_fail (s : KState) (addr : Nat) (owner : Int)
    (h : addr % PAGESIZE ≠ 0 ∨ MEMSIZE_PHYSICAL ≤ addr ∨
      (s.pageinfo (PAGENUMBER addr : Int)).refcount ≠ 0) :
    physical_page_alloc s addr owner = (s, -1) := by
  unfold physical_page_alloc
  rw [if_pos h]

theorem physical_page_alloc_ok (s : KState) (addr : Nat) (owner : Int)
    (h1 : addr % PAGESIZE = 0) (h2 : addr < MEMSIZE_PHYSICAL)
    (h3 : (s.pageinfo (PAGENUMBER addr : Int)).refcount = 0) :
    physical_page_alloc s addr owner =
      ({ s with pageinfo := upd1 s.pageinfo (PAGENUMBER addr : Int) ⟨owner, 1⟩ }, 0) := by
  unfold physical_page_alloc
  rw [if_neg]
  push_neg
  exact ⟨h1, h2, h3⟩

theorem find_free_physical_page_some (s : KState) (a : Nat)
    (h : find_free_physical_page s = some a) :
    ∃ i : Nat, i < NPAGES ∧ a = PAGEADDRESS i ∧ s.pageinfo (i : Int) = ⟨0, 0⟩ := by
  unfold find_free_physical_page at h
  cases hf : (List.range NPAGES).find? (isFreePage s) with
  | none => rw [hf] at h; simp at h
  | some i =>
    rw [hf] at h
    simp only [Option.map_some', Option.some.injEq] at h
    refine ⟨i, ?_, h.symm, ?_⟩
    · exact List.mem_range.mp (List.mem_of_find?_eq_some hf)
    · have hp := List.find?_some hf
      unfold isFreePage pageinfoAt at hp
      simp only [Bool.and_eq_true, decide_eq_true_eq] at hp
      cases hinfo : s.pageinfo (i : Int) with
      | mk o r =>
        have ho := hp.1
        have hr := hp.2
        rw [hinfo] at ho hr
        simp only at ho hr
        rw [ho, hr]

theorem find_free_physical_page_none (s : KState)
    (h : find_free_physical_page s = none) :
    ∀ i : Nat, i < NPAGES → ¬(s.pageinfo (i : Int) = ⟨0, 0⟩) := by
  intro i hi hfree
  unfold find_free_physical_page at h
  rw [Option.map_eq_none'] at h
  rw [List.find?_eq_none] at h
  have := h i (List.mem_range.mpr hi)
  unfold isFreePage pageinfoAt at this
  rw [hfree] at this
  simp at this

/-- Equational description of alloc_free_page in the success case: it returns
the first free page and installs the owner there. -/
theorem alloc_free_page_eq_of_find (s : KState) (owner : Int) (a : Nat)
    (hf : find_free_physical_page s = some a) :
    alloc_free_page s owner =
      ({ s with pageinfo := upd1 s.pageinfo (PAGENUMBER a : Int) ⟨owner, 1⟩ }, some a) := by
  obtain ⟨i, hi, ha, hfree⟩ := find_free_physical_page_some s a hf
  have hpn : PAGENUMBER a = i := by rw [ha, PAGENUMBER_PAGEADDRESS]
  have h1 : a % PAGESIZE = 0 := by rw [ha]; exact PAGEADDRESS_mod i
  have h2 : a < MEMSIZE_PHYSICAL := by rw [ha]; exact PAGEADDRESS_lt_physical i hi
  have h3 : (s.pageinfo (PAGENUMBER a : Int)).refcount = 0 := by rw [hpn, hfree]
  unfold alloc_free_page
  rw [hf]
  simp only [physical_page_alloc_ok s a owner h1 h2 h3]
  norm_num

theorem alloc_free_page_eq_of_none (s : KState) (owner : Int)
    (hf : find_free_physical_page s = none) :
    alloc_free_page s owner = (s, none) := by
  unfold alloc_free_page
  rw [hf]

/-- C6: for every physical address and owner, physical_page_alloc fails with -1
exactly when the address is misaligned, out of the physical range, or the page
has nonzero refcount; on success it returns 0, sets that ledger entry to
refcount 1 with the given owner, and changes no other ledger entry (and no
other component of the state). -/
theorem physical_page_alloc_spec (s : KState) (addr : Nat) (owner : Int) :
    ((physical_page_alloc s addr owner).2 = -1 ↔
      (addr % PAGESIZE ≠ 0 ∨ MEMSIZE_PHYSICAL ≤ addr ∨
        (s.pageinfo (PAGENUMBER addr : Int)).refcount ≠ 0)) ∧
    ((physical_page_alloc s addr owner).2 ≠ -1 →
      (physical_page_alloc s addr owner).2 = 0 ∧
      (physical_page_alloc s addr owner).1.pageinfo (PAGENUMBER addr : Int) = ⟨owner, 1⟩ ∧
      (∀ j : Int, j ≠ (PAGENUMBER addr : Int) →
        (physical_page_alloc s addr owner).1.pageinfo j = s.pageinfo j) ∧
      (physical_page_alloc s addr owner).1.processes = s.processes ∧
      (physical_page_alloc s addr owner).1.l1 = s.l1 ∧
      (physical_page_alloc s addr owner).1.l2 = s.l2 ∧
      (physical_page_alloc s addr owner).1.data = s.data) := by
  by_cases hc : addr % PAGESIZE ≠ 0 ∨ MEMSIZE_PHYSICAL ≤ addr ∨
      (s.pageinfo (PAGENUMBER addr : Int)).refcount ≠ 0
  · rw [physical_page_alloc_fail s addr owner hc]
    constructor
    · simpa using hc
    · intro hne; exact absurd rfl hne
  · push_neg at hc
    rw [physical_page_alloc_ok s addr owner hc.1 hc.2.1 hc.2.2]
    refine ⟨?_, ?_⟩
    · constructor
      · intro h; exact absurd h (by norm_num)
      · intro h
        rcases h with h | h | h
        · exact absurd hc.1 h
        · exact absurd h (by omega)
        · exact absurd hc.2.2 h
    · intro _
      refine ⟨rfl, upd1_self _ _ _, ?_, rfl, rfl, rfl, rfl⟩
      intro j hj; exact upd1_other _ _ _ _ hj

/-- Concrete state for witnesses: page 7 is the only free page. -/
def sW6 : KState where
  pageinfo := fun j => if j = 7 then ⟨0, 0⟩ else ⟨-1, 1⟩
  processes := fun i => ⟨(i : Int), P_FREE, 0, ⟨0, 0⟩⟩
  l1 := fun _ _ => 0
  l2 := fun _ _ => 0
  data := fun _ => 0
  current := 1

theorem physical_page_alloc_spec_witness :
    (physical_page_alloc sW6 (PAGEADDRESS 7) 3).1.pageinfo
      (PAGENUMBER (PAGEADDRESS 7) : Int) = ⟨3, 1⟩ :=
  ((physical_page_alloc_spec sW6 (PAGEADDRESS 7) 3).2 (by decide)).2.1

/-- C10: alloc_free_page either fails with an unchanged state, or returns the
page-aligned address of a physical page whose ledger entry was owner FREE with
refcount 0 immediately before the call (in particular not RESERVED and not
KERNEL), and on success that entry becomes the requested owner with refcount 1
while every other ledger entry is unchanged. -/
theorem alloc_free_page_spec (s : KState) (owner : Int) :
    ((alloc_free_page s owner).2 = none → (alloc_free_page s owner).1 = s) ∧
    (∀ a : Nat, (alloc_free_page s owner).2 = some a →
      a = PAGEADDRESS (PAGENUMBER a) ∧ PAGENUMBER a < NPAGES ∧
      s.pageinfo (PAGENUMBER a : Int) = ⟨0, 0⟩ ∧
      (s.pageinfo (PAGENUMBER a : Int)).owner ≠ PO_RESERVED ∧
      (s.pageinfo (PAGENUMBER a : Int)).owner ≠ PO_KERNEL ∧
      (alloc_free_page s owner).1.pageinfo (PAGENUMBER a : Int) = ⟨owner, 1⟩ ∧
      (∀ j : Int, j ≠ (PAGENUMBER a : Int) →
        (alloc_free_page s owner).1.pageinfo j = s.pageinfo j)) := by
  cases hf : find_free_physical_page s with
  | none =>
    rw [alloc_free_page_eq_of_none s owner hf]
    exact ⟨fun _ => rfl, fun a ha => by simp at ha⟩
  | some pg =>
    rw [alloc_free_page_eq_of_find s owner pg hf]
    obtain ⟨i, hi, hpg, hfree⟩ := find_free_physical_page_some s pg hf
    have hpn : PAGENUMBER pg = i := by rw [hpg, PAGENUMBER_PAGEADDRESS]
    constructor
    · intro h; simp at h
    · intro a ha
      simp only [Option.some.injEq] at ha
      subst ha
      refine ⟨?_, ?_, ?_, ?_, ?_, ?_, ?_⟩
      · rw [hpn, hpg]
      · rw [hpn]; exact hi
      · rw [hpn]; exact hfree
      · rw [hpn, hfree]; simp [PO_RESERVED]
      · rw [hpn, hfree]; simp [PO_KERNEL]
      · exact upd1_self _ _ _
      · intro j hj; exact upd1_other _ _ _ _ hj

theorem alloc_free_page_spec_witness :
    (alloc_free_page sW6 5).1.pageinfo (PAGENUMBER (PAGEADDRESS 7) : Int) = ⟨5, 1⟩ := by
  have h := (alloc_free_page_spec sW6 5).2 (PAGEADDRESS 7) (by decide)
  exact h.2.2.2.2.2.1

/-
  C9: fork with a full process table.
-/

/-- C9: if every process slot from 1 to NPROC-1 is in a non-FREE state,
fork_process returns -1 and the entire state (process descriptors, ledger,
translation tables, data pages) is unchanged. -/
theorem fork_process_no_free_slot (s : KState)
    (h : ∀ i : Nat, i < NPROC → 1 ≤ i → (s.processes i).p_state ≠ P_FREE) :
    fork_process s = (s, -1) := by
  have hnone : (List.range' 1 (NPROC - 1)).find?
      (fun i => decide ((s.processes i).p_state = P_FREE)) = none := by
    rw [List.find?_eq_none]
    intro x hx
    rw [List.mem_range'] at hx
    obtain ⟨i, hi, rfl⟩ := hx
    simp only [decide_eq_true_eq]
    exact h (1 + 1 * i) (by unfold NPROC at *; omega) (by omega)
  have hfind : find_free_process_slot s = -1 := by
    unfold find_free_process_slot
    rw [hnone]
  unfold fork_process
  rw [hfind]
  simp

/-- Concrete state for the C9 witness: every slot from 1 on is BROKEN. -/
def sW9 : KState where
  pageinfo := fun _ => ⟨-1, 1⟩
  processes := fun i => ⟨(i : Int), if i = 0 then P_FREE else P_BROKEN, 0, ⟨0, 0⟩⟩
  l1 := fun _ _ => 0
  l2 := fun _ _ => 0
  data := fun _ => 0
  current := 1

theorem fork_process_no_free_slot_witness : fork_process sW9 = (sW9, -1) :=
  fork_process_no_free_slot sW9 (by decide)

/-
  C7: the scheduler.
-/

theorem int_mod_NPROC (p : Nat) :
    ((p : Int) + 1) % (NPROC : Int) = (((p + 1) % NPROC : Nat) : Int) := by
  unfold NPROC
  push_cast
  omega

theorem scheduleAux_succ (s : KState) (pid : Int) (n : Nat) :
    scheduleAux s pid (n + 1) =
      (if (s.processes (((pid + 1) % (NPROC : Int)).toNat)).p_state = P_RUNNABLE
       then some ((pid + 1) % (NPROC : Int))
       else scheduleAux s ((pid + 1) % (NPROC : Int)) n) := rfl

theorem scheduleAux_finds (s : KState) :
    ∀ (fuel : Nat) (p : Nat), p < NPROC →
    (∃ j : Nat, j < fuel ∧ (s.processes ((p + 1 + j) % NPROC)).p_state = P_RUNNABLE) →
    ∃ j : Nat, j < fuel ∧
      scheduleAux s (p : Int) fuel = some (((p + 1 + j) % NPROC : Nat) : Int) ∧
      (s.processes ((p + 1 + j) % NPROC)).p_state = P_RUNNABLE ∧
      ∀ j' : Nat, j' < j → (s.processes ((p + 1 + j') % NPROC)).p_state ≠ P_RUNNABLE := by
  intro fuel
  induction fuel with
  | zero =>
    rintro p hp ⟨j, hj, _⟩
    omega
  | succ n ih =>
    rintro p hp ⟨j, hj, hr⟩
    rw [scheduleAux_succ, int_mod_NPROC p]
    rw [Int.toNat_ofNat]
    by_cases h0 : (s.processes ((p + 1) % NPROC)).p_state = P_RUNNABLE
    · refine ⟨0, Nat.succ_pos n, ?_, by simpa using h0, fun j' hj' => absurd hj' (Nat.not_lt_zero j')⟩
      rw [if_pos h0]
    · rw [if_neg (by simpa using h0)]
      have hj0 : j ≠ 0 := by
        intro heq
        rw [heq] at hr
        simp only [Nat.add_zero] at hr
        exact h0 hr
      obtain ⟨j'', rfl⟩ : ∃ j'', j = j'' + 1 := ⟨j - 1, by omega⟩
      have harith : ∀ k : Nat, (p + 1 + (k + 1)) % NPROC = ((p + 1) % NPROC + 1 + k) % NPROC := by
        intro k
        unfold NPROC
        omega
      have hex : ∃ t : Nat, t < n ∧
          (s.processes (((p + 1) % NPROC + 1 + t) % NPROC)).p_state = P_RUNNABLE := by
        refine ⟨j'', by omega, ?_⟩
        rw [← harith j'']
        exact hr
      obtain ⟨t, ht, hres, hrun, hmin⟩ := ih ((p + 1) % NPROC) (Nat.mod_lt _ (by unfold NPROC; omega)) hex
      refine ⟨t + 1, by omega, ?_, ?_, ?_⟩
      · rw [hres]
        congr 2
        rw [harith t]
      · rw [harith t]; exact hrun
      · intro j' hj'
        cases j' with
        | zero => simpa using h0
        | succ k =>
          rw [harith k]
          exact hmin k (by omega)

theorem scheduleAux_none_all (s : KState)
    (h : ∀ i : Nat, i < NPROC → (s.processes i).p_state ≠ P_RUNNABLE) :
    ∀ (fuel : Nat) (pid : Int), scheduleAux s pid fuel = none := by
  intro fuel
  induction fuel with
  | zero => intro pid; rfl
  | succ n ih =>
    intro pid
    rw [scheduleAux_succ]
    rw [if_neg, ih]
    apply h
    have h1 : (0 : Int) ≤ (pid + 1) % (NPROC : Int) := by
      apply Int.emod_nonneg
      unfold NPROC; omega
    have h2 : (pid + 1) % (NPROC : Int) < (NPROC : Int) := by
      apply Int.emod_lt_of_pos
      unfold NPROC; omega
    unfold NPROC at *
    omega

/-- C7: whenever some process is RUNNABLE, one full round of the scheduler scan
resumes the first RUNNABLE process in cyclic order starting at the slot right
after the current process; when no process is RUNNABLE the scan never yields a
process, for any amount of fuel (the C loop spins forever, repeatedly checking
the cancel signal, which is external to this model). -/
theorem schedule_spec (s : KState)
    (hpid : (s.processes s.current).p_pid = (s.current : Int))
    (hcur : s.current < NPROC) :
    ((∃ i : Nat, i < NPROC ∧ (s.processes i).p_state = P_RUNNABLE) →
      ∃ j : Nat, j < NPROC ∧
        schedule_pick s NPROC = some (((s.current + 1 + j) % NPROC : Nat) : Int) ∧
        (s.processes ((s.current + 1 + j) % NPROC)).p_state = P_RUNNABLE ∧
        ∀ j' : Nat, j' < j →
          (s.processes ((s.current + 1 + j') % NPROC)).p_state ≠ P_RUNNABLE) ∧
    ((∀ i : Nat, i < NPROC → (s.processes i).p_state ≠ P_RUNNABLE) →
      ∀ fuel : Nat, schedule_pick s fuel = none) := by
  constructor
  · rintro ⟨i, hi, hrun⟩
    have hex : ∃ j : Nat, j < NPROC ∧
        (s.processes ((s.current + 1 + j) % NPROC)).p_state = P_RUNNABLE := by
      obtain ⟨j, hj, heq⟩ : ∃ j : Nat, j < NPROC ∧ (s.current + 1 + j) % NPROC = i := by
        refine ⟨(NPROC + i - (s.current + 1) % NPROC) % NPROC, ?_, ?_⟩ <;>
          (unfold NPROC at *; omega)
      exact ⟨j, hj, heq ▸ hrun⟩
    have hmain := scheduleAux_finds s NPROC s.current hcur hex
    unfold schedule_pick
    rw [hpid]
    exact hmain
  · intro h fuel
    unfold schedule_pick
    exact scheduleAux_none_all s h fuel ((s.processes s.current).p_pid)

/-- Concrete state for the C7 witness: current is slot 1, slot 3 is the only
runnable slot, so the scan must pick slot 3 (offset 1 after slot 2). -/
def sW7 : KState where
  pageinfo := fun _ => ⟨-1, 1⟩
  processes := fun i => ⟨(i : Int), if i = 3 then P_RUNNABLE else P_FREE, 0, ⟨0, 0⟩⟩
  l1 := fun _ _ => 0
  l2 := fun _ _ => 0
  data := fun _ => 0
  current := 1

theorem schedule_spec_witness :
    ∃ j : Nat, j < NPROC ∧
      schedule_pick sW7 NPROC = some (((sW7.current + 1 + j) % NPROC : Nat) : Int) ∧
      (sW7.processes ((sW7.current + 1 + j) % NPROC)).p_state = P_RUNNABLE ∧
      ∀ j' : Nat, j' < j →
        (sW7.processes ((sW7.current + 1 + j') % NPROC)).p_state ≠ P_RUNNABLE :=
  (schedule_spec sW7 (by decide) (by decide)).1 ⟨3, by decide, by decide⟩

/-
  C1: the page-allocate syscall on a misaligned address.
-/

/-- Concrete failing input for the page-allocate syscall: the current process
(slot 1, pid 1) requests address PROC_START_ADDR + 1, one byte off page
alignment, while page 100 is free. -/
def sC1 : KState where
  pageinfo := fun j => if j = 100 then ⟨0, 0⟩ else ⟨-1, 1⟩
  processes := fun i => ⟨(i : Int), if i = 1 then P_RUNNABLE else P_FREE, PAGEADDRESS 10, ⟨0, 0⟩⟩
  l1 := fun _ _ => 0
  l2 := fun _ _ => 0
  data := fun _ => 0
  current := 1

/-- C1: on a misaligned page-allocate request the handler does put -1 in the
return-value register, but the physical page ledger is not as it was before
the syscall: because the handler calls alloc_free_page before validating the
address, the free page 100 has been allocated to the caller (owner 1,
refcount 1) even though the request failed and nothing was mapped. -/
theorem page_alloc_misaligned_leak :
    ((exception_sys_page_alloc sC1 ⟨(0x100001 : Int), 0⟩).processes 1).p_registers.reg_eax = -1 ∧
    sC1.pageinfo (100 : Int) = ⟨0, 0⟩ ∧
    (exception_sys_page_alloc sC1 ⟨(0x100001 : Int), 0⟩).pageinfo (100 : Int) = ⟨1, 1⟩ := by
  decide

/-
  C8: the ledger index used by the sharing branch of fork.
-/

/-- Concrete failing input for the fork ledger-index claim: the current
process (slot 1, pid 1, root at page 10 with second level at page 11) has no
mapping at all in the private region, slot 2 is free, and pages 30 and 31 are
free for the child page-table clone. -/
def sC8 : KState where
  pageinfo := fun j =>
    if j = 10 then ⟨1, 1⟩ else if j = 11 then ⟨1, 1⟩
    else if j = 30 then ⟨0, 0⟩ else if j = 31 then ⟨0, 0⟩ else ⟨-1, 1⟩
  processes := fun i =>
    ⟨(i : Int), if i = 1 then P_RUNNABLE else P_FREE,
      if i = 1 then PAGEADDRESS 10 else 0, ⟨0, 0⟩⟩
  l1 := fun a b => if a = 10 ∧ b = 0 then PAGEADDRESS 11 + 7 else 0
  l2 := fun _ _ => 0
  data := fun _ => 0
  current := 1

set_option maxHeartbeats 4000000 in
/-- C8: the page-number field produced by the parent lookup is NOT always in
[0, NPAGES).  For an unmapped private address the lookup reports pn = -1 (the
sentinel kernel.c itself tests for in memshow_virtual), the sharing branch of
fork is the one taken (perm = 0 is not writable), and the refcount update of
that branch lands at ledger index -1, outside the pageinfo array: after a fork
of a parent whose 512 private pages are all unmapped, the ledger cell at index
-1 has been incremented 512 times. -/
theorem fork_unmapped_ledger_index :
    (virtual_memory_lookup sC8 (PAGEADDRESS 10) PROC_START_ADDR).perm = 0 ∧
    (virtual_memory_lookup sC8 (PAGEADDRESS 10) PROC_START_ADDR).pn = -1 ∧
    ¬(0 ≤ (virtual_memory_lookup sC8 (PAGEADDRESS 10) PROC_START_ADDR).pn ∧
      (virtual_memory_lookup sC8 (PAGEADDRESS 10) PROC_START_ADDR).pn < (NPAGES : Int)) ∧
    (fork_process sC8).2 = 2 ∧
    ((fork_process sC8).1.pageinfo (-1)).refcount = 513 := by
  constructor
  · decide
  constructor
  · decide
  constructor
  · decide
  constructor
  · decide
  · decide

/-
  C4: characterization of the exit reclamation loop.
-/

theorem virtual_memory_lookup_congr (s t : KState) (h1 : s.l1 = t.l1) (h2 : s.l2 = t.l2)
    (pt va : Nat) : virtual_memory_lookup s pt va = virtual_memory_lookup t pt va := by
  unfold virtual_memory_lookup
  rw [h1, h2]

theorem find_page_owner_congr (s t : KState) (hp : s.processes = t.processes)
    (h1 : s.l1 = t.l1) (h2 : s.l2 = t.l2) (i : Nat) :
    find_page_owner s i = find_page_owner t i := by
  unfold find_page_owner ownerScanHit
  simp only [hp, virtual_memory_lookup_congr s t h1 h2]

/-- The value the reclamation loop of free_current_process leaves in ledger
entry i, expressed against the state b at the start of the loop (the exiting
process already BLOCKED): entries not owned by the pid are untouched; an owned
entry with refcount above 1 is decremented and handed to the process found by
find_page_owner, or forced to FREE with refcount 0 when the scan finds none;
an owned entry with refcount 1 becomes FREE with refcount 0; any other owned
entry keeps its refcount and the owner becomes FREE. -/
def exitEntry (b : KState) (pid : Int) (i : Nat) : physical_pageinfo :=
  if (b.pageinfo (i : Int)).owner = pid then
    if 1 < (b.pageinfo (i : Int)).refcount then
      (if find_page_owner b i ≠ -1 then
        ⟨find_page_owner b i, (b.pageinfo (i : Int)).refcount - 1⟩
      else ⟨PO_FREE, 0⟩)
    else if (b.pageinfo (i : Int)).refcount = 1 then ⟨PO_FREE, 0⟩
    else ⟨PO_FREE, (b.pageinfo (i : Int)).refcount⟩
  else b.pageinfo (i : Int)

theorem freeEntryStep_spec (b : KState) (pid : Int) (t : KState) (i : Nat)
    (hp : t.processes = b.processes) (h1 : t.l1 = b.l1) (h2 : t.l2 = b.l2)
    (hag : t.pageinfo (i : Int) = b.pageinfo (i : Int)) :
    (freeEntryStep pid t i).processes = t.processes ∧
    (freeEntryStep pid t i).l1 = t.l1 ∧
    (freeEntryStep pid t i).l2 = t.l2 ∧
    (freeEntryStep pid t i).data = t.data ∧
    (freeEntryStep pid t i).current = t.current ∧
    (freeEntryStep pid t i).pageinfo (i : Int) = exitEntry b pid i ∧
    (∀ j : Int, j ≠ (i : Int) → (freeEntryStep pid t i).pageinfo j = t.pageinfo j) := by
  have hcongr : ∀ (g : Int → physical_pageinfo),
      find_page_owner { t with pageinfo := g } i = find_page_owner b i := by
    intro g
    exact find_page_owner_congr _ _ hp h1 h2 i
  simp only [freeEntryStep, exitEntry]
  rw [hag]
  by_cases ho : (b.pageinfo (i : Int)).owner = pid
  · rw [if_pos ho, if_pos ho]
    by_cases hrc : 1 < (b.pageinfo (i : Int)).refcount
    · rw [if_pos hrc, if_pos hrc, hcongr]
      by_cases hf : find_page_owner b i ≠ -1
      · rw [if_pos hf, if_pos hf]
        refine ⟨rfl, rfl, rfl, rfl, rfl, upd1_self _ _ _, ?_⟩
        intro j hj
        exact (upd1_other _ _ _ _ hj).trans (upd1_other _ _ _ _ hj)
      · rw [if_neg hf, if_neg hf]
        refine ⟨rfl, rfl, rfl, rfl, rfl, upd1_self _ _ _, ?_⟩
        intro j hj
        exact (upd1_other _ _ _ _ hj).trans (upd1_other _ _ _ _ hj)
    · rw [if_neg hrc, if_neg hrc]
      by_cases h1rc : (b.pageinfo (i : Int)).refcount = 1
      · rw [if_pos h1rc, if_pos h1rc]
        refine ⟨rfl, rfl, rfl, rfl, rfl, ?_, ?_⟩
        · refine (upd1_self _ _ _).trans ?_
          rw [h1rc]
          norm_num
        · intro j hj
          exact upd1_other _ _ _ _ hj
      · rw [if_neg h1rc, if_neg h1rc]
        refine ⟨rfl, rfl, rfl, rfl, rfl, upd1_self _ _ _, ?_⟩
        intro j hj
        exact upd1_other _ _ _ _ hj
  · rw [if_neg ho, if_neg ho]
    exact ⟨rfl, rfl, rfl, rfl, rfl, hag, fun _ _ => rfl⟩

theorem foldl_freeEntryStep_spec (b : KState) (pid : Int) :
    ∀ (l : List Nat) (t : KState),
    t.processes = b.processes → t.l1 = b.l1 → t.l2 = b.l2 →
    (∀ i ∈ l, t.pageinfo (i : Int) = b.pageinfo (i : Int)) → l.Nodup →
    (l.foldl (freeEntryStep pid) t).processes = t.processes ∧
    (l.foldl (freeEntryStep pid) t).l1 = t.l1 ∧
    (l.foldl (freeEntryStep pid) t).l2 = t.l2 ∧
    (l.foldl (freeEntryStep pid) t).data = t.data ∧
    (l.foldl (freeEntryStep pid) t).current = t.current ∧
    (∀ i ∈ l, (l.foldl (freeEntryStep pid) t).pageinfo (i : Int) = exitEntry b pid i) ∧
    (∀ j : Int, (∀ i ∈ l, j ≠ (i : Int)) →
      (l.foldl (freeEntryStep pid) t).pageinfo j = t.pageinfo j) := by
  intro l
  induction l with
  | nil =>
    intro t _ _ _ _ _
    exact ⟨rfl, rfl, rfl, rfl, rfl, by simp, fun j _ => rfl⟩
  | cons i l' ih =>
    intro t hp h1 h2 hag hnd
    simp only [List.foldl_cons]
    obtain ⟨a1, a2, a3, a4, a5, a6, a7⟩ :=
      freeEntryStep_spec b pid t i hp h1 h2 (hag i (List.mem_cons_self i l'))
    have hnd' := List.nodup_cons.mp hnd
    have hag' : ∀ i' ∈ l',
        (freeEntryStep pid t i).pageinfo (i' : Int) = b.pageinfo (i' : Int) := by
      intro i' hi'
      have hne : (i' : Int) ≠ (i : Int) := by
        have hne0 : i' ≠ i := fun he => hnd'.1 (he ▸ hi')
        exact_mod_cast hne0
      rw [a7 (i' : Int) hne]
      exact hag i' (List.mem_cons_of_mem i hi')
    obtain ⟨b1, b2, b3, b4, b5, b6, b7⟩ :=
      ih (freeEntryStep pid t i) (a1.trans hp) (a2.trans h1) (a3.trans h2) hag' hnd'.2
    refine ⟨b1.trans a1, b2.trans a2, b3.trans a3, b4.trans a4, b5.trans a5, ?_, ?_⟩
    · intro i0 hi0
      rcases List.mem_cons.mp hi0 with heq | hmem
      · subst heq
        have hni : ∀ i2 ∈ l', (i0 : Int) ≠ (i2 : Int) := by
          intro i2 hi2
          have hne0 : i0 ≠ i2 := fun he => hnd'.1 (he ▸ hi2)
          exact_mod_cast hne0
        rw [b7 (i0 : Int) hni]
        exact a6
      · exact b6 i0 hmem
    · intro j hj
      have hj' : ∀ i2 ∈ l', j ≠ (i2 : Int) :=
        fun i2 hi2 => hj i2 (List.mem_cons_of_mem i hi2)
      rw [b7 j hj']
      exact a7 j (hj i (List.mem_cons_self i l'))

theorem setPState_self (s : KState) (slot : Nat) (st : procstate) :
    (setPState s slot st).processes slot = { s.processes slot with p_state := st } := by
  unfold setPState
  simp only [updP_self]

theorem setPState_other (s : KState) (slot : Nat) (st : procstate) (q : Nat) (h : q ≠ slot) :
    (setPState s slot st).processes q = s.processes q := by
  unfold setPState
  simp only [updP_other _ _ _ _ h]

theorem setPState_rest (s : KState) (slot : Nat) (st : procstate) :
    (setPState s slot st).pageinfo = s.pageinfo ∧ (setPState s slot st).l1 = s.l1 ∧
    (setPState s slot st).l2 = s.l2 ∧ (setPState s slot st).data = s.data ∧
    (setPState s slot st).current = s.current :=
  ⟨rfl, rfl, rfl, rfl, rfl⟩

theorem free_current_process_eq (s : KState) (slot : Nat) :
    free_current_process s slot =
      setPState (free_loop (setPState s slot P_BLOCKED)
        (((setPState s slot P_BLOCKED).processes slot).p_pid)) slot P_FREE := rfl

theorem free_loop_spec (b : KState) (pid : Int) :
    (free_loop b pid).processes = b.processes ∧
    (free_loop b pid).l1 = b.l1 ∧
    (free_loop b pid).l2 = b.l2 ∧
    (free_loop b pid).data = b.data ∧
    (free_loop b pid).current = b.current ∧
    (∀ i : Nat, i < NPAGES → (free_loop b pid).pageinfo (i : Int) = exitEntry b pid i) ∧
    (∀ j : Int, (∀ i : Nat, i < NPAGES → j ≠ (i : Int)) →
      (free_loop b pid).pageinfo j = b.pageinfo j) := by
  obtain ⟨c1, c2, c3, c4, c5, c6, c7⟩ :=
    foldl_freeEntryStep_spec b pid (List.range NPAGES) b rfl rfl rfl (fun _ _ => rfl)
      (List.nodup_range NPAGES)
  have hdef : (List.range NPAGES).foldl (freeEntryStep pid) b = free_loop b pid := rfl
  rw [hdef] at c1 c2 c3 c4 c5 c6 c7
  refine ⟨c1, c2, c3, c4, c5, ?_, ?_⟩
  · intro i hi
    exact c6 i (List.mem_range.mpr hi)
  · intro j hj
    exact c7 j (fun i hi => hj i (List.mem_range.mp hi))

theorem free_current_process_spec (s : KState) (slot : Nat) :
    ((free_current_process s slot).processes slot =
      { s.processes slot with p_state := P_FREE }) ∧
    (∀ q : Nat, q ≠ slot → (free_current_process s slot).processes q = s.processes q) ∧
    (free_current_process s slot).l1 = s.l1 ∧
    (free_current_process s slot).l2 = s.l2 ∧
    (free_current_process s slot).data = s.data ∧
    (free_current_process s slot).current = s.current ∧
    (∀ i : Nat, i < NPAGES →
      (free_current_process s slot).pageinfo (i : Int) =
        exitEntry (setPState s slot P_BLOCKED) ((s.processes slot).p_pid) i) ∧
    (∀ j : Int, (∀ i : Nat, i < NPAGES → j ≠ (i : Int)) →
      (free_current_process s slot).pageinfo j = s.pageinfo j) := by
  have hpid : ((setPState s slot P_BLOCKED).processes slot).p_pid = (s.processes slot).p_pid := by
    rw [setPState_self]
  obtain ⟨c1, c2, c3, c4, c5, c6, c7⟩ :=
    free_loop_spec (setPState s slot P_BLOCKED)
      (((setPState s slot P_BLOCKED).processes slot).p_pid)
  rw [hpid] at c1 c2 c3 c4 c5 c6 c7
  rw [free_current_process_eq, hpid]
  refine ⟨?_, ?_, ?_, ?_, ?_, ?_, ?_, ?_⟩
  · rw [setPState_self, congrFun c1 slot, setPState_self]
  · intro q hq
    rw [setPState_other _ _ _ _ hq, congrFun c1 q, setPState_other _ _ _ _ hq]
  · rw [(setPState_rest _ _ _).2.1, c2]
    exact (setPState_rest s slot P_BLOCKED).2.1
  · rw [(setPState_rest _ _ _).2.2.1, c3]
    exact (setPState_rest s slot P_BLOCKED).2.2.1
  · rw [(setPState_rest _ _ _).2.2.2.1, c4]
    exact (setPState_rest s slot P_BLOCKED).2.2.2.1
  · rw [(setPState_rest _ _ _).2.2.2.2, c5]
    exact (setPState_rest s slot P_BLOCKED).2.2.2.2
  · intro i hi
    rw [congrFun (setPState_rest _ _ _).1 (i : Int)]
    exact c6 i hi
  · intro j hj
    rw [congrFun (setPState_rest _ _ _).1 j, c7 j hj]
    exact congrFun (setPState_rest s slot P_BLOCKED).1 j

theorem find_page_owner_found (s : KState) (i : Nat)
    (h : find_page_owner s i ≠ -1) :
    ∃ q : Nat, (q : Int) = find_page_owner s i ∧ 1 ≤ q ∧ q < NPROC ∧
      (s.processes q).p_state = P_RUNNABLE ∧
      ∃ k : Nat, k < NPAGES ∧
        (virtual_memory_lookup s ((s.processes q).p_pagetable) (PAGEADDRESS k)).pa =
          PAGEADDRESS i := by
  unfold find_page_owner at h ⊢
  cases hf : (List.range' 1 (NPROC - 1)).find? (ownerScanHit s i) with
  | none =>
    rw [hf] at h
    simp at h
  | some q =>
    have hmem := List.mem_of_find?_eq_some hf
    rw [List.mem_range'] at hmem
    obtain ⟨off, hofflt, rfl⟩ := hmem
    have hp := List.find?_some hf
    unfold ownerScanHit at hp
    rw [Bool.and_eq_true] at hp
    have hrun : (s.processes (1 + 1 * off)).p_state = P_RUNNABLE := by
      simpa using hp.1
    have hany := hp.2
    rw [List.any_eq_true] at hany
    obtain ⟨k, hk, hkp⟩ := hany
    refine ⟨1 + 1 * off, rfl, by omega, by unfold NPROC at *; omega, hrun,
      k, List.mem_range.mp hk, by simpa using hkp⟩

theorem find_page_owner_not_found (s : KState) (i : Nat)
    (h : find_page_owner s i = -1) :
    ∀ q : Nat, 1 ≤ q → q < NPROC → (s.processes q).p_state = P_RUNNABLE →
      ∀ k : Nat, k < NPAGES →
        (virtual_memory_lookup s ((s.processes q).p_pagetable) (PAGEADDRESS k)).pa ≠
          PAGEADDRESS i := by
  unfold find_page_owner at h
  cases hf : (List.range' 1 (NPROC - 1)).find? (ownerScanHit s i) with
  | some q =>
    rw [hf] at h
    simp at h
  | none =>
    rw [List.find?_eq_none] at hf
    intro q h1 h2 hrun k hk heq
    have hqmem : q ∈ List.range' 1 (NPROC - 1) := by
      rw [List.mem_range']
      exact ⟨q - 1, by unfold NPROC at *; omega, by omega⟩
    have := hf q hqmem
    apply this
    unfold ownerScanHit
    rw [Bool.and_eq_true]
    refine ⟨by simpa using hrun, ?_⟩
    rw [List.any_eq_true]
    exact ⟨k, List.mem_range.mpr hk, by simpa using heq⟩

/-- The mapping notion used by claim C4: some page-aligned virtual address
below the virtual ceiling translates, under the root of process q, to
physical page i (a present mapping, since the looked-up pn is nonnegative). -/
def mapsPhysicalPage (s : KState) (q : Nat) (i : Nat) : Prop :=
  ∃ va : Nat, va % PAGESIZE = 0 ∧ va < MEMSIZE_VIRTUAL ∧
    (virtual_memory_lookup s ((s.processes q).p_pagetable) va).pn = (i : Int)

/-- Claim C4 as stated: in every call to exit, for every ledger entry owned by
the pid of the exiting process (judged after the process is blocked): a
refcount above 1 is decremented and ownership reassigned to a runnable process
whose translation root still maps that physical page whenever such a process
exists; refcount exactly 1 becomes FREE with refcount 0; refcount 0 keeps
refcount 0 with owner FREE; and the process ends FREE. -/
def C4_claim_statement : Prop :=
  ∀ (s : KState) (slot : Nat) (i : Nat), i < NPAGES →
    ((let b := setPState s slot P_BLOCKED
      let pid := (s.processes slot).p_pid
      let e := b.pageinfo (i : Int)
      let e' := (free_current_process s slot).pageinfo (i : Int)
      e.owner = pid →
        (1 < e.refcount →
          ((∃ q : Nat, 1 ≤ q ∧ q < NPROC ∧ (b.processes q).p_state = P_RUNNABLE ∧
              mapsPhysicalPage b q i) →
            ∃ q : Nat, 1 ≤ q ∧ q < NPROC ∧ (b.processes q).p_state = P_RUNNABLE ∧
              mapsPhysicalPage b q i ∧ e' = ⟨(q : Int), e.refcount - 1⟩)) ∧
        (e.refcount = 1 → e' = ⟨PO_FREE, 0⟩) ∧
        (e.refcount = 0 → e' = ⟨PO_FREE, 0⟩)) ∧
      ((free_current_process s slot).processes slot).p_state = P_FREE)

/-- Concrete input refuting claim C4 as stated: process 1 (the exiting one,
with root pages 10/11) owns page 5 with refcount 2; process 2 is RUNNABLE
and maps page 5, but only at virtual address 0x200000, which lies at and
above PAGEADDRESS(NPAGES) = MEMSIZE_PHYSICAL and is therefore outside the
range scanned by find_page_owner. -/
def sCE4 : KState where
  pageinfo := fun j =>
    if j = 5 then ⟨1, 2⟩ else if j = 10 then ⟨1, 1⟩ else if j = 11 then ⟨1, 1⟩
    else if j = 20 then ⟨2, 1⟩ else if j = 21 then ⟨2, 1⟩ else ⟨-1, 1⟩
  processes := fun i =>
    if i = 1 then ⟨1, P_RUNNABLE, PAGEADDRESS 10, ⟨0, 0⟩⟩
    else if i = 2 then ⟨2, P_RUNNABLE, PAGEADDRESS 20, ⟨0, 0⟩⟩
    else ⟨(i : Int), P_FREE, 0, ⟨0, 0⟩⟩
  l1 := fun a b =>
    if a = 10 ∧ b = 0 then PAGEADDRESS 11 + 7
    else if a = 20 ∧ b = 0 then PAGEADDRESS 21 + 7 else 0
  l2 := fun a b => if a = 21 ∧ b = 512 then PAGEADDRESS 5 + 5 else 0
  data := fun _ => 0
  current := 1

/-- C4 is falsified by sCE4: exiting process 1 owns page 5 with refcount 2 and
runnable process 2 still maps page 5 (at virtual address 0x200000), yet the
code forces the entry to owner FREE, refcount 0, because find_page_owner only
scans virtual addresses below PAGEADDRESS(NPAGES). -/
theorem exit_reassignment_counterexample : ¬ C4_claim_statement := by
  intro hcl
  have h := hcl sCE4 1 5 (by norm_num [NPAGES])
  have hex : ∃ q : Nat, 1 ≤ q ∧ q < NPROC ∧
      ((setPState sCE4 1 P_BLOCKED).processes q).p_state = P_RUNNABLE ∧
      mapsPhysicalPage (setPState sCE4 1 P_BLOCKED) q 5 := by
    refine ⟨2, by norm_num, by norm_num [NPROC], by decide, ?_⟩
    refine ⟨0x200000, by norm_num [PAGESIZE], by norm_num [MEMSIZE_VIRTUAL], ?_⟩
    decide
  have hres := ((h.1 (by decide)).1 (by decide)) hex
  obtain ⟨q, hq1, hq2, hq3, hq4, hq5⟩ := hres
  have he' : (free_current_process sCE4 1).pageinfo ((5 : Nat) : Int) = ⟨0, 0⟩ := by
    rw [(free_current_process_spec sCE4 1).2.2.2.2.2.2.1 5 (by norm_num [NPAGES])]
    unfold exitEntry
    rw [if_pos (by decide), if_pos (by decide), if_neg (by decide)]
    rfl
  rw [he'] at hq5
  have hrc := congrArg physical_pageinfo.refcount hq5
  have hrc2 : ((setPState sCE4 1 P_BLOCKED).pageinfo ((5 : Nat) : Int)).refcount = 2 := by decide
  simp only [hrc2] at hrc
  norm_num at hrc

/-- C4 amended: for every call to exit (free_current_process) on a process p,
p is first set to BLOCKED, and for every ledger entry owned by the pid of p:
if its refcount is greater than 1, the refcount is decremented by 1 and
ownership is reassigned to a runnable process whose translation root maps
that physical page at a virtual address below PAGEADDRESS(NPAGES) (matching
on the looked-up physical address, as the owner scan does), or, if the scan
finds no such process, the entry is forced to owner FREE with refcount 0; if
its refcount is exactly 1 it becomes owner FREE with refcount 0; any other
owned entry keeps its refcount and its owner becomes FREE; entries not owned
by the pid are unchanged; finally the state of p becomes FREE. -/
theorem exit_reclaims_owned_entries (s : KState) (slot : Nat) :
    (((free_current_process s slot).processes slot).p_state = P_FREE) ∧
    (∀ i : Nat, i < NPAGES →
      (let b := setPState s slot P_BLOCKED
       let pid := (s.processes slot).p_pid
       let e := s.pageinfo (i : Int)
       let e' := (free_current_process s slot).pageinfo (i : Int)
       (e.owner ≠ pid → e' = e) ∧
       (e.owner = pid →
         (1 < e.refcount →
           ((∃ q : Nat, 1 ≤ q ∧ q < NPROC ∧ (b.processes q).p_state = P_RUNNABLE ∧
              (∃ k : Nat, k < NPAGES ∧
                (virtual_memory_lookup b ((b.processes q).p_pagetable) (PAGEADDRESS k)).pa =
                  PAGEADDRESS i) ∧ e' = ⟨(q : Int), e.refcount - 1⟩) ∨
            (e' = ⟨PO_FREE, 0⟩ ∧
             ∀ q : Nat, 1 ≤ q → q < NPROC → (b.processes q).p_state = P_RUNNABLE →
               ∀ k : Nat, k < NPAGES →
                 (virtual_memory_lookup b ((b.processes q).p_pagetable) (PAGEADDRESS k)).pa ≠
                   PAGEADDRESS i))) ∧
         (e.refcount = 1 → e' = ⟨PO_FREE, 0⟩) ∧
         (¬1 < e.refcount → e.refcount ≠ 1 → e' = ⟨PO_FREE, e.refcount⟩)))) := by
  obtain ⟨d1, d2, d3, d4, d5, d6, d7, d8⟩ := free_current_process_spec s slot
  have hbpage : ∀ j : Int, (setPState s slot P_BLOCKED).pageinfo j = s.pageinfo j :=
    fun j => congrFun (setPState_rest s slot P_BLOCKED).1 j
  constructor
  · rw [d1]
  · intro i hi
    have hvali := d7 i hi
    unfold exitEntry at hvali
    rw [hbpage (i : Int)] at hvali
    refine ⟨?_, ?_⟩
    · intro hne
      rw [if_neg hne] at hvali
      exact hvali
    · intro hown
      rw [if_pos hown] at hvali
      refine ⟨?_, ?_, ?_⟩
      · intro hrc
        rw [if_pos hrc] at hvali
        by_cases hf : find_page_owner (setPState s slot P_BLOCKED) i ≠ -1
        · left
          rw [if_pos hf] at hvali
          obtain ⟨q, hqeq, hq1, hq2, hqrun, k, hk, hkpa⟩ :=
            find_page_owner_found (setPState s slot P_BLOCKED) i hf
          refine ⟨q, hq1, hq2, hqrun, ⟨k, hk, hkpa⟩, ?_⟩
          rw [hvali, ← hqeq]
        · right
          rw [if_neg hf] at hvali
          push_neg at hf
          exact ⟨hvali, find_page_owner_not_found (setPState s slot P_BLOCKED) i hf⟩
      · intro hrc1
        rw [if_neg (by omega), if_pos hrc1] at hvali
        exact hvali
      · intro hrcn hrc1
        rw [if_neg hrcn, if_neg hrc1] at hvali
        exact hvali

theorem exit_reclaims_owned_entries_witness :
    (free_current_process sCE4 1).pageinfo ((10 : Nat) : Int) = ⟨PO_FREE, 0⟩ :=
  ((((exit_reclaims_owned_entries sCE4 1).2 10 (by norm_num [NPAGES])).2
    (by decide)).2.1 (by decide))

/-
  C2: machinery for the fork loop.
-/

/-- The branch test of the fork loop: vam.perm && (vam.perm & PTE_W). -/
def wr (vam : vamapping) : Prop := vam.perm ≠ 0 ∧ vam.perm / 2 % 2 = 1

instance (vam : vamapping) : Decidable (wr vam) := by
  unfold wr
  infer_instance

/-- Lookup of a virtual address under the root of the current process. -/
def pLook (s : KState) (va : Nat) : vamapping :=
  virtual_memory_lookup s ((s.processes s.current).p_pagetable) va

/-- The physical page number of the second-level table of the given slot,
reached through entry 0 of its root. -/
def childL2 (s : KState) (slot : Nat) : Nat :=
  PAGENUMBER (s.l1 (PAGENUMBER ((s.processes slot).p_pagetable)) 0)

/-- The physical page numbers of the present parent mappings over the private
region, in visit order. -/
def presentPns (s : KState) : List Int :=
  privateVAs.filterMap (fun va =>
    if (pLook s va).perm % 2 = 1 then some (pLook s va).pn else none)

/-- Number of free ledger entries. -/
def freeCount (s : KState) : Nat := (List.range NPAGES).countP (isFreePage s)

/-- Number of writable present parent mappings among the given addresses. -/
def wCount (s : KState) (l : List Nat) : Nat := l.countP (fun va => decide (wr (pLook s va)))

theorem countP_update (l : List Nat) (p q : Nat → Bool) (i : Nat)
    (hnd : l.Nodup) (hi : i ∈ l) (hpi : p i = true) (hqi : q i = false)
    (hagree : ∀ j ∈ l, j ≠ i → q j = p j) :
    l.countP q + 1 = l.countP p := by
  induction l with
  | nil => cases hi
  | cons a t ih =>
    have hnd' := List.nodup_cons.mp hnd
    rcases List.mem_cons.mp hi with rfl | hmem
    · rw [List.countP_cons, List.countP_cons, hpi, hqi]
      have hcq : t.countP q = t.countP p := by
        apply List.countP_congr
        intro x hx
        have hxne : x ≠ i := fun he => hnd'.1 (he ▸ hx)
        rw [hagree x (List.mem_cons_of_mem i hx) hxne]
      simp [hcq]
    · rw [List.countP_cons, List.countP_cons]
      have ha : q a = p a := by
        have hane : a ≠ i := fun he => hnd'.1 (he ▸ hmem)
        exact hagree a (List.mem_cons_self a t) hane
      rw [ha]
      have := ih hnd'.2 hmem (fun j hj hjne => hagree j (List.mem_cons_of_mem a hj) hjne)
      omega

theorem freeCount_pos_find (s : KState) (h : 0 < freeCount s) :
    ∃ a : Nat, find_free_physical_page s = some a := by
  unfold freeCount at h
  rw [List.countP_pos_iff] at h
  obtain ⟨i, hi, hp⟩ := h
  unfold find_free_physical_page
  cases hf : (List.range NPAGES).find? (isFreePage s) with
  | none =>
    rw [List.find?_eq_none] at hf
    exact absurd hp (hf i hi)
  | some j => exact ⟨PAGEADDRESS j, rfl⟩

theorem isFreePage_iff (s : KState) (i : Nat) :
    isFreePage s i = true ↔ s.pageinfo (i : Int) = ⟨0, 0⟩ := by
  unfold isFreePage pageinfoAt
  rw [Bool.and_eq_true, decide_eq_true_eq, decide_eq_true_eq]
  constructor
  · intro ⟨h1, h2⟩
    cases hv : s.pageinfo (i : Int) with
    | mk o r => rw [hv] at h1 h2; simp only at h1 h2; rw [h1, h2]
  · intro h
    rw [h]
    exact ⟨rfl, rfl⟩

theorem freeCount_alloc (s : KState) (owner : Int) (a : Nat)
    (h : (alloc_free_page s owner).2 = some a) :
    freeCount ((alloc_free_page s owner).1) + 1 = freeCount s := by
  cases hf : find_free_physical_page s with
  | none => rw [alloc_free_page_eq_of_none s owner hf] at h; simp at h
  | some a0 =>
    rw [alloc_free_page_eq_of_find s owner a0 hf] at h ⊢
    simp only [Option.some.injEq] at h
    subst h
    obtain ⟨i, hi, ha, hfree⟩ := find_free_physical_page_some s a0 hf
    have hpn : PAGENUMBER a0 = i := by rw [ha, PAGENUMBER_PAGEADDRESS]
    unfold freeCount
    apply countP_update (List.range NPAGES) (isFreePage s) _ i (List.nodup_range NPAGES)
      (List.mem_range.mpr hi)
    · rw [isFreePage_iff]; exact hfree
    · rw [Bool.eq_false_iff, Ne, isFreePage_iff]
      intro hcon
      rw [hpn] at hcon
      have hval : upd1 s.pageinfo (i : Int) ⟨owner, 1⟩ (i : Int) = ⟨0, 0⟩ := hcon
      rw [upd1_self] at hval
      have := congrArg physical_pageinfo.refcount hval
      simp at this
    · intro j hj hjne
      have hne : (j : Int) ≠ (i : Int) := by exact_mod_cast hjne
      have heq : (upd1 s.pageinfo ((PAGENUMBER a0 : Nat) : Int) ⟨owner, 1⟩) (j : Int) =
          s.pageinfo (j : Int) := by
        rw [hpn]
        exact upd1_other _ _ _ _ hne
      simp only [isFreePage, pageinfoAt]
      simp only [heq]

theorem mem_privateVAs (va : Nat) :
    va ∈ privateVAs ↔ ∃ k : Nat, k < 512 ∧ va = PROC_START_ADDR + PAGEADDRESS k := by
  unfold privateVAs
  rw [List.mem_map]
  constructor
  · rintro ⟨k, hk, rfl⟩
    rw [List.mem_range] at hk
    refine ⟨k, ?_, rfl⟩
    have : (MEMSIZE_VIRTUAL - PROC_START_ADDR) / PAGESIZE = 512 := by
      norm_num [MEMSIZE_VIRTUAL, PROC_START_ADDR, PAGESIZE]
    omega
  · rintro ⟨k, hk, rfl⟩
    refine ⟨k, ?_, rfl⟩
    rw [List.mem_range]
    have : (MEMSIZE_VIRTUAL - PROC_START_ADDR) / PAGESIZE = 512 := by
      norm_num [MEMSIZE_VIRTUAL, PROC_START_ADDR, PAGESIZE]
    omega

theorem privateVA_facts (va : Nat) (h : va ∈ privateVAs) :
    va % PAGESIZE = 0 ∧ 256 ≤ PAGENUMBER va ∧ PAGENUMBER va < 768 ∧
    PAGENUMBER va / PAGETABLE_NENTRIES = 0 ∧ va < MEMSIZE_VIRTUAL ∧ PROC_START_ADDR ≤ va := by
  obtain ⟨k, hk, rfl⟩ := (mem_privateVAs va).mp h
  simp only [PAGENUMBER, PAGEADDRESS, PROC_START_ADDR, PAGETABLE_NENTRIES, MEMSIZE_VIRTUAL,
    PAGESIZE]
  refine ⟨by omega, by omega, by omega, by omega, by omega, by omega⟩

theorem privateVA_vpn_inj (va1 va2 : Nat) (h1 : va1 ∈ privateVAs) (h2 : va2 ∈ privateVAs)
    (hne : va1 ≠ va2) :
    PAGENUMBER va1 % PAGETABLE_NENTRIES ≠ PAGENUMBER va2 % PAGETABLE_NENTRIES := by
  obtain ⟨k1, hk1, rfl⟩ := (mem_privateVAs va1).mp h1
  obtain ⟨k2, hk2, rfl⟩ := (mem_privateVAs va2).mp h2
  simp only [PAGENUMBER, PAGEADDRESS, PROC_START_ADDR, PAGETABLE_NENTRIES, PAGESIZE] at *
  omega

theorem privateVAs_nodup : privateVAs.Nodup := by
  unfold privateVAs
  refine List.Nodup.map ?_ (List.nodup_range _)
  intro k1 k2 he
  have he2 : PROC_START_ADDR + PAGEADDRESS k1 = PROC_START_ADDR + PAGEADDRESS k2 := he
  unfold PROC_START_ADDR PAGEADDRESS PAGESIZE at he2
  omega

theorem entry_decode (z q : Nat) (hq : q < PAGESIZE) :
    PAGENUMBER (PAGEADDRESS z + q) = z ∧ (PAGEADDRESS z + q) % PAGESIZE = q ∧
    (PAGEADDRESS z + q) % 2 = q % 2 := by
  unfold PAGENUMBER PAGEADDRESS PAGESIZE at *
  refine ⟨by omega, by omega, by omega⟩

theorem lookup_perm_lt (s : KState) (pt va : Nat) :
    (virtual_memory_lookup s pt va).perm < PAGESIZE := by
  unfold virtual_memory_lookup
  simp only
  apply Nat.mod_lt
  norm_num [PAGESIZE]

theorem lookup_shape (s : KState) (pt va : Nat) (hva : va % PAGESIZE = 0) :
    ((virtual_memory_lookup s pt va).perm % 2 = 1 →
      (virtual_memory_lookup s pt va).pn =
        ((PAGENUMBER ((virtual_memory_lookup s pt va).pa) : Nat) : Int)) ∧
    (¬(virtual_memory_lookup s pt va).perm % 2 = 1 →
      (virtual_memory_lookup s pt va).pn = -1) ∧
    (virtual_memory_lookup s pt va).pa =
      PAGEADDRESS (PAGENUMBER ((virtual_memory_lookup s pt va).pa)) := by
  unfold virtual_memory_lookup
  simp only
  set pe1 := s.l1 (PAGENUMBER pt) (PAGENUMBER va / PAGETABLE_NENTRIES) with hpe1
  set pe := if pe1 % 2 = 1 then s.l2 (PAGENUMBER pe1) (PAGENUMBER va % PAGETABLE_NENTRIES) else 0
    with hpe
  have hmm : pe % PAGESIZE % 2 = pe % 2 := by
    have : (2 : Nat) ∣ PAGESIZE := by norm_num [PAGESIZE]
    exact Nat.mod_mod_of_dvd pe this
  have hpa : PAGEADDRESS (PAGENUMBER pe) + va % PAGESIZE = PAGEADDRESS (PAGENUMBER pe) := by
    rw [hva]
    exact Nat.add_zero _
  have hpd : PAGENUMBER (PAGEADDRESS (PAGENUMBER pe)) = PAGENUMBER pe := PAGENUMBER_PAGEADDRESS _
  refine ⟨?_, ?_, ?_⟩
  · intro hperm
    rw [hmm] at hperm
    rw [if_pos hperm, hpa, hpd]
  · intro hperm
    rw [hmm] at hperm
    rw [if_neg hperm]
  · rw [hpa, hpd]

theorem virtual_memory_map_single (s : KState) (pt va pa perm : Nat) :
    virtual_memory_map s pt va pa PAGESIZE perm = vmap_page s pt va pa perm := by
  unfold virtual_memory_map
  have h1 : PAGESIZE / PAGESIZE = 1 := by norm_num [PAGESIZE]
  have h2 : List.range 1 = [0] := rfl
  rw [h1, h2, List.foldl_cons, List.foldl_nil]
  have h0 : PAGEADDRESS 0 = 0 := by norm_num [PAGEADDRESS]
  rw [h0, Nat.add_zero, Nat.add_zero]

/-- Invariant of the fork loop, relative to the loop entry state s2: the
process table, current index and first-level tables are untouched; only the
second-level table of the child changes; data pages that were allocated at
loop entry keep their contents; and every real ledger entry is either
untouched, a fresh page now charged to the child, or a parent page shared at
an already-visited address with its refcount raised by one. -/
def forkInv (s2 : KState) (chldPid : Int) (slot : Nat) (rest : List Nat) (s : KState) : Prop :=
  s.processes = s2.processes ∧
  s.current = s2.current ∧
  s.l1 = s2.l1 ∧
  (∀ pn : Nat, pn ≠ childL2 s2 slot → s.l2 pn = s2.l2 pn) ∧
  (∀ pn : Nat, (s2.pageinfo (pn : Int)).refcount ≠ 0 → s.data pn = s2.data pn) ∧
  (∀ pn : Nat, pn < NPAGES →
    s.pageinfo (pn : Int) = s2.pageinfo (pn : Int) ∨
    (s2.pageinfo (pn : Int) = ⟨0, 0⟩ ∧ s.pageinfo (pn : Int) = ⟨chldPid, 1⟩) ∨
    (∃ va' , va' ∈ privateVAs ∧ va' ∉ rest ∧ (pLook s2 va').perm % 2 = 1 ∧
      (pLook s2 va').pn = (pn : Int) ∧
      (s.pageinfo (pn : Int)).owner = (s2.pageinfo (pn : Int)).owner ∧
      (s.pageinfo (pn : Int)).refcount = (s2.pageinfo (pn : Int)).refcount + 1))

/-- Per-address conclusion of the fork loop, relative to the loop entry state
s2: a writable parent page has been copied into a fresh page charged to the
child and installed in the child second-level table with the parent
permission; any other address has the parent entry replayed into the child
table, and a present one has its ledger refcount raised by exactly one with
the owner unchanged. -/
def forkConcl (s2 : KState) (chldPid : Int) (slot : Nat) (va : Nat) (sF : KState) : Prop :=
  (wr (pLook s2 va) → ∃ z : Nat, z < NPAGES ∧ s2.pageinfo (z : Int) = ⟨0, 0⟩ ∧
     sF.pageinfo (z : Int) = ⟨chldPid, 1⟩ ∧
     sF.l2 (childL2 s2 slot) (PAGENUMBER va % PAGETABLE_NENTRIES) =
       PAGEADDRESS z + (pLook s2 va).perm % PAGESIZE ∧
     sF.data z = s2.data (PAGENUMBER (pLook s2 va).pa)) ∧
  (¬wr (pLook s2 va) →
     sF.l2 (childL2 s2 slot) (PAGENUMBER va % PAGETABLE_NENTRIES) =
       PAGEADDRESS (PAGENUMBER (pLook s2 va).pa) + (pLook s2 va).perm % PAGESIZE ∧
     ((pLook s2 va).perm % 2 = 1 →
       (sF.pageinfo (pLook s2 va).pn).owner = (s2.pageinfo (pLook s2 va).pn).owner ∧
       (sF.pageinfo (pLook s2 va).pn).refcount = (s2.pageinfo (pLook s2 va).pn).refcount + 1))

theorem filterMap_nodup_inj (l : List Nat) (f : Nat → Option Int)
    (hl : l.Nodup) (hfm : (l.filterMap f).Nodup) (a1 a2 : Nat) (h1 : a1 ∈ l) (h2 : a2 ∈ l)
    (hne : a1 ≠ a2) (b : Int) (hb1 : f a1 = some b) (hb2 : f a2 = some b) : False := by
  induction l with
  | nil => cases h1
  | cons a t ih =>
    have hl' := List.nodup_cons.mp hl
    rw [List.filterMap_cons] at hfm
    rcases List.mem_cons.mp h1 with rfl | hm1
    · have hm2 : a2 ∈ t := by
        rcases List.mem_cons.mp h2 with rfl | hm2
        · exact absurd rfl hne
        · exact hm2
      rw [hb1] at hfm
      have hbf : b ∈ t.filterMap f := List.mem_filterMap.mpr ⟨a2, hm2, hb2⟩
      exact (List.nodup_cons.mp hfm).1 hbf
    · rcases List.mem_cons.mp h2 with rfl | hm2
      · rw [hb2] at hfm
        have hbf : b ∈ t.filterMap f := List.mem_filterMap.mpr ⟨a1, hm1, hb1⟩
        exact (List.nodup_cons.mp hfm).1 hbf
      · have hfm' : (t.filterMap f).Nodup := by
          cases hfa : f a with
          | none => rw [hfa] at hfm; exact hfm
          | some c => rw [hfa] at hfm; exact (List.nodup_cons.mp hfm).2
        exact ih hl'.2 hfm' hm1 hm2

theorem presentPns_inj (s2 : KState) (hnd : (presentPns s2).Nodup)
    (va1 va2 : Nat) (h1 : va1 ∈ privateVAs) (h2 : va2 ∈ privateVAs) (hne : va1 ≠ va2)
    (hp1 : (pLook s2 va1).perm % 2 = 1) (hp2 : (pLook s2 va2).perm % 2 = 1) :
    (pLook s2 va1).pn ≠ (pLook s2 va2).pn := by
  intro heq
  refine filterMap_nodup_inj privateVAs
    (fun va => if (pLook s2 va).perm % 2 = 1 then some (pLook s2 va).pn else none)
    privateVAs_nodup hnd va1 va2 h1 h2 hne (pLook s2 va2).pn ?_ ?_
  · show (if (pLook s2 va1).perm % 2 = 1 then some (pLook s2 va1).pn else none) =
      some (pLook s2 va2).pn
    rw [if_pos hp1, heq]
  · show (if (pLook s2 va2).perm % 2 = 1 then some (pLook s2 va2).pn else none) =
      some (pLook s2 va2).pn
    rw [if_pos hp2]

theorem pLook_stable (s2 : KState) (chldPid : Int) (slot : Nat) (rest : List Nat) (s : KState)
    (hInv : forkInv s2 chldPid slot rest s)
    (hne : (s2.l1 (PAGENUMBER ((s2.processes s2.current).p_pagetable)) 0) % 2 = 1 →
      PAGENUMBER (s2.l1 (PAGENUMBER ((s2.processes s2.current).p_pagetable)) 0) ≠
        childL2 s2 slot)
    (va : Nat) (hva : PAGENUMBER va / PAGETABLE_NENTRIES = 0) :
    virtual_memory_lookup s ((s.processes s.current).p_pagetable) va = pLook s2 va := by
  obtain ⟨h1, h2, h3, h4, h5, h6⟩ := hInv
  unfold pLook virtual_memory_lookup
  rw [h1, h2, h3, hva]
  have hpe : (if (s2.l1 (PAGENUMBER ((s2.processes s2.current).p_pagetable)) 0) % 2 = 1 then
        s.l2 (PAGENUMBER (s2.l1 (PAGENUMBER ((s2.processes s2.current).p_pagetable)) 0))
          (PAGENUMBER va % PAGETABLE_NENTRIES) else 0) =
      (if (s2.l1 (PAGENUMBER ((s2.processes s2.current).p_pagetable)) 0) % 2 = 1 then
        s2.l2 (PAGENUMBER (s2.l1 (PAGENUMBER ((s2.processes s2.current).p_pagetable)) 0))
          (PAGENUMBER va % PAGETABLE_NENTRIES) else 0) := by
    by_cases hp : (s2.l1 (PAGENUMBER ((s2.processes s2.current).p_pagetable)) 0) % 2 = 1
    · rw [if_pos hp, if_pos hp, h4 _ (hne hp)]
    · rw [if_neg hp, if_neg hp]
  simp only [hpe]

theorem forkMap_effect (s2 : KState) (slot : Nat) (s : KState)
    (hp : s.processes = s2.processes) (hl1 : s.l1 = s2.l1) (va pa perm : Nat)
    (hva : va ∈ privateVAs) :
    virtual_memory_map s ((s.processes slot).p_pagetable) va pa PAGESIZE perm =
      { s with l2 := upd2 s.l2 (childL2 s2 slot) (PAGENUMBER va % PAGETABLE_NENTRIES) (PAGEADDRESS (PAGENUMBER pa) + perm % PAGESIZE) } := by
  rw [virtual_memory_map_single]
  unfold vmap_page childL2
  rw [hp, hl1, (privateVA_facts va hva).2.2.2.1]

theorem forkLoop_cons_share (s : KState) (chld_pid : Int) (slot : Nat) (va : Nat)
    (rest : List Nat)
    (hnw : ¬((virtual_memory_lookup s ((s.processes s.current).p_pagetable) va).perm ≠ 0 ∧
      (virtual_memory_lookup s ((s.processes s.current).p_pagetable) va).perm / 2 % 2 = 1)) :
    forkLoop s chld_pid slot (va :: rest) =
      forkLoop (forkShareStep s slot va) chld_pid slot rest := by
  simp only [forkLoop]
  rw [if_neg hnw]

theorem forkLoop_cons_copy (s : KState) (chld_pid : Int) (slot : Nat) (va : Nat)
    (rest : List Nat) (s1 : KState) (a : Nat)
    (hw : (virtual_memory_lookup s ((s.processes s.current).p_pagetable) va).perm ≠ 0 ∧
      (virtual_memory_lookup s ((s.processes s.current).p_pagetable) va).perm / 2 % 2 = 1)
    (halloc : alloc_free_page s chld_pid = (s1, some a)) :
    forkLoop s chld_pid slot (va :: rest) =
      forkLoop (forkCopyStep s1 slot va
        (virtual_memory_lookup s ((s.processes s.current).p_pagetable) va) a)
        chld_pid slot rest := by
  simp only [forkLoop]
  rw [if_pos hw, halloc]

theorem forkLoop_cons_copyfail (s : KState) (chld_pid : Int) (slot : Nat) (va : Nat)
    (rest : List Nat) (s1 : KState)
    (hw : (virtual_memory_lookup s ((s.processes s.current).p_pagetable) va).perm ≠ 0 ∧
      (virtual_memory_lookup s ((s.processes s.current).p_pagetable) va).perm / 2 % 2 = 1)
    (halloc : alloc_free_page s chld_pid = (s1, none)) :
    forkLoop s chld_pid slot (va :: rest) = (free_current_process s1 slot, false) := by
  simp only [forkLoop]
  rw [if_pos hw, halloc]

theorem vmap_effect (s : KState) (pt va pa perm : Nat) (hva : va ∈ privateVAs) :
    virtual_memory_map s pt va pa PAGESIZE perm =
      { s with l2 := upd2 s.l2 (PAGENUMBER (s.l1 (PAGENUMBER pt) 0)) (PAGENUMBER va % PAGETABLE_NENTRIES) (PAGEADDRESS (PAGENUMBER pa) + perm % PAGESIZE) } := by
  rw [virtual_memory_map_single]
  unfold vmap_page
  rw [(privateVA_facts va hva).2.2.2.1]

theorem forkShareStep_effect (s2 : KState) (chldPid : Int) (slot : Nat) (R : List Nat)
    (s : KState) (hInv : forkInv s2 chldPid slot R s)
    (hne : (s2.l1 (PAGENUMBER ((s2.processes s2.current).p_pagetable)) 0) % 2 = 1 →
      PAGENUMBER (s2.l1 (PAGENUMBER ((s2.processes s2.current).p_pagetable)) 0) ≠
        childL2 s2 slot)
    (va : Nat) (hva : va ∈ privateVAs) :
    forkShareStep s slot va =
      { s with
        l2 := upd2 s.l2 (childL2 s2 slot) (PAGENUMBER va % PAGETABLE_NENTRIES) (PAGEADDRESS (PAGENUMBER (pLook s2 va).pa) + (pLook s2 va).perm % PAGESIZE),
        pageinfo := upd1 s.pageinfo (pLook s2 va).pn ⟨(s.pageinfo (pLook s2 va).pn).owner, (s.pageinfo (pLook s2 va).pn).refcount + 1⟩ } := by
  have hlk := pLook_stable s2 chldPid slot R s hInv hne va (privateVA_facts va hva).2.2.2.1
  have hrow : PAGENUMBER (s.l1 (PAGENUMBER ((s.processes slot).p_pagetable)) 0) = childL2 s2 slot := by
    rw [hInv.2.2.1, hInv.1]; rfl
  unfold forkShareStep
  simp only [hlk]
  simp only [vmap_effect s ((s.processes slot).p_pagetable) va (pLook s2 va).pa (pLook s2 va).perm hva]
  simp only [hrow]

theorem forkCopyStep_effect (s2 : KState) (chldPid : Int) (slot : Nat)
    (s : KState) (hp : s.processes = s2.processes) (hl1 : s.l1 = s2.l1)
    (va : Nat) (hva : va ∈ privateVAs) (s1 : KState) (a : Nat)
    (halloc : alloc_free_page s chldPid = (s1, some a)) (vam : vamapping) :
    forkCopyStep s1 slot va vam a =
      { s with
        pageinfo := upd1 s.pageinfo (PAGENUMBER a : Int) ⟨chldPid, 1⟩,
        data := updN s.data (PAGENUMBER a) (s.data (PAGENUMBER vam.pa)),
        l2 := upd2 s.l2 (childL2 s2 slot) (PAGENUMBER va % PAGETABLE_NENTRIES) (PAGEADDRESS (PAGENUMBER a) + vam.perm % PAGESIZE) } := by
  cases hf : find_free_physical_page s with
  | none => rw [alloc_free_page_eq_of_none s chldPid hf] at halloc; simp at halloc
  | some a0 =>
    rw [alloc_free_page_eq_of_find s chldPid a0 hf] at halloc
    have hs1 : s1 = { s with pageinfo := upd1 s.pageinfo ((PAGENUMBER a0 : Nat) : Int) ⟨chldPid, 1⟩ } := by
      cases halloc; rfl
    have ha : a = a0 := by
      cases halloc; rfl
    have hstep : forkCopyStep s1 slot va vam a0 =
        virtual_memory_map { s1 with data := updN s1.data (PAGENUMBER a0) (s1.data (PAGENUMBER vam.pa)) }
          ((s1.processes slot).p_pagetable) va a0 PAGESIZE vam.perm := rfl
    have hrow : PAGENUMBER (s.l1 (PAGENUMBER ((s.processes slot).p_pagetable)) 0) = childL2 s2 slot := by
      rw [hl1, hp]; rfl
    subst ha
    rw [hstep]
    rw [vmap_effect ({ s1 with data := updN s1.data (PAGENUMBER a) (s1.data (PAGENUMBER vam.pa)) }) ((s1.processes slot).p_pagetable) va a vam.perm hva]
    subst hs1
    simp only []
    simp only [hrow]

/-- Well-formedness of the fork loop entry state: a writable private mapping
is present, and a present one maps a real physical page whose ledger entry is
live. -/
def forkWF (s2 : KState) : Prop :=
  ∀ va ∈ privateVAs, (wr (pLook s2 va) → (pLook s2 va).perm % 2 = 1) ∧
    ((pLook s2 va).perm % 2 = 1 → ∃ pn : Nat, pn < NPAGES ∧ (pLook s2 va).pn = (pn : Int) ∧
      1 ≤ (s2.pageinfo (pn : Int)).refcount)

/-- Separation of the parent and child second-level table pages: when entry 0
of the parent root is present, the second-level page it names differs from the
child's. -/
def forkNE (s2 : KState) (slot : Nat) : Prop :=
  (s2.l1 (PAGENUMBER ((s2.processes s2.current).p_pagetable)) 0) % 2 = 1 →
    PAGENUMBER (s2.l1 (PAGENUMBER ((s2.processes s2.current).p_pagetable)) 0) ≠
      childL2 s2 slot

instance (s2 : KState) (slot : Nat) : Decidable (forkNE s2 slot) := by
  unfold forkNE
  infer_instance

instance (s2 : KState) : Decidable (forkWF s2) := by
  unfold forkWF
  infer_instance

theorem pLook_shape (s2 : KState) (va : Nat) (hva : va ∈ privateVAs) :
    ((pLook s2 va).perm % 2 = 1 →
      (pLook s2 va).pn = ((PAGENUMBER ((pLook s2 va).pa) : Nat) : Int)) ∧
    (¬(pLook s2 va).perm % 2 = 1 → (pLook s2 va).pn = -1) ∧
    (pLook s2 va).pa = PAGEADDRESS (PAGENUMBER ((pLook s2 va).pa)) :=
  lookup_shape s2 ((s2.processes s2.current).p_pagetable) va (privateVA_facts va hva).1

theorem freeCount_congr (s t : KState) (h : s.pageinfo = t.pageinfo) :
    freeCount s = freeCount t := by
  unfold freeCount
  apply List.countP_congr
  intro i _
  unfold isFreePage pageinfoAt
  rw [h]

theorem forkShareStep_facts (s2 : KState) (chldPid : Int) (slot : Nat)
    (hne : forkNE s2 slot) (hnd : (presentPns s2).Nodup) (hwf : forkWF s2)
    (va : Nat) (rest' : List Nat) (hva : va ∈ privateVAs) (hnr : va ∉ rest')
    (s : KState) (hInv : forkInv s2 chldPid slot (va :: rest') s) :
    forkInv s2 chldPid slot rest' (forkShareStep s slot va) ∧
    (¬wr (pLook s2 va) → forkConcl s2 chldPid slot va (forkShareStep s slot va)) ∧
    freeCount (forkShareStep s slot va) = freeCount s := by
  have heff := forkShareStep_effect s2 chldPid slot (va :: rest') s hInv hne va hva
  have hkey : (pLook s2 va).perm % 2 = 1 →
      ∃ pnN : Nat, pnN < NPAGES ∧ (pLook s2 va).pn = ((pnN : Nat) : Int) ∧
        1 ≤ (s2.pageinfo ((pnN : Nat) : Int)).refcount ∧
        s.pageinfo ((pnN : Nat) : Int) = s2.pageinfo ((pnN : Nat) : Int) := by
    intro hp
    obtain ⟨pnN, hlt, hpn, hrc⟩ := (hwf va hva).2 hp
    refine ⟨pnN, hlt, hpn, hrc, ?_⟩
    rcases hInv.2.2.2.2.2 pnN hlt with hcase | hcase | hcase
    · exact hcase
    · exfalso
      have := congrArg physical_pageinfo.refcount hcase.1
      simp only at this
      omega
    · exfalso
      obtain ⟨va2, hva2, hvnin, hp2, hpn2, _, _⟩ := hcase
      have hvne : va2 ≠ va := fun he => hvnin (he ▸ List.mem_cons_self va rest')
      exact presentPns_inj s2 hnd va2 va hva2 hva hvne hp2 hp (hpn2.trans hpn.symm)
  have hneg : ¬(pLook s2 va).perm % 2 = 1 → (pLook s2 va).pn = -1 :=
    (pLook_shape s2 va hva).2.1
  rw [heff]
  refine ⟨⟨hInv.1, hInv.2.1, hInv.2.2.1, ?_, hInv.2.2.2.2.1, ?_⟩, ?_, ?_⟩
  · intro pn hpn
    funext b
    exact (upd2_other _ _ _ _ _ _ (fun hx => hpn hx.1)).trans
      (congrFun (hInv.2.2.2.1 pn hpn) b)
  · intro pn hpn6
    simp only []
    by_cases hip : ((pn : Nat) : Int) = (pLook s2 va).pn
    · by_cases hp : (pLook s2 va).perm % 2 = 1
      · obtain ⟨pnN, hlt, hpnn, hrc, hseq⟩ := hkey hp
        have hpe : pn = pnN := by
          have : ((pn : Nat) : Int) = ((pnN : Nat) : Int) := hip.trans hpnn
          exact_mod_cast this
        subst hpe
        have h1 : upd1 s.pageinfo (pLook s2 va).pn
            ⟨(s.pageinfo (pLook s2 va).pn).owner, (s.pageinfo (pLook s2 va).pn).refcount + 1⟩
            ((pn : Nat) : Int) =
            ⟨(s.pageinfo (pLook s2 va).pn).owner, (s.pageinfo (pLook s2 va).pn).refcount + 1⟩ := by
          rw [hip]
          exact upd1_self _ _ _
        have ho : (s.pageinfo (pLook s2 va).pn).owner = (s2.pageinfo ((pn : Nat) : Int)).owner := by
          rw [hpnn]
          exact congrArg physical_pageinfo.owner hseq
        have hr : (s.pageinfo (pLook s2 va).pn).refcount =
            (s2.pageinfo ((pn : Nat) : Int)).refcount := by
          rw [hpnn]
          exact congrArg physical_pageinfo.refcount hseq
        refine Or.inr (Or.inr ⟨va, hva, hnr, hp, hip.symm, ?_, ?_⟩)
        · rw [h1]
          exact ho
        · rw [h1]
          exact congrArg (fun x => x + 1) hr
      · exfalso
        rw [hneg hp] at hip
        omega
    · have h1 : upd1 s.pageinfo (pLook s2 va).pn
          ⟨(s.pageinfo (pLook s2 va).pn).owner, (s.pageinfo (pLook s2 va).pn).refcount + 1⟩
          ((pn : Nat) : Int) = s.pageinfo ((pn : Nat) : Int) :=
        upd1_other _ _ _ _ hip
      rcases hInv.2.2.2.2.2 pn hpn6 with hcase | hcase | hcase
      · exact Or.inl (h1.trans hcase)
      · exact Or.inr (Or.inl ⟨hcase.1, h1.trans hcase.2⟩)
      · obtain ⟨va2, hva2, hvnin, hp2, hpn2, ho2, hr2⟩ := hcase
        exact Or.inr (Or.inr ⟨va2, hva2, fun hm => hvnin (List.mem_cons_of_mem va hm),
          hp2, hpn2, (congrArg physical_pageinfo.owner h1).trans ho2,
          (congrArg physical_pageinfo.refcount h1).trans hr2⟩)
  · intro hnw
    constructor
    · intro hwcon
      exact absurd hwcon hnw
    · intro _
      refine ⟨upd2_self _ _ _ _, ?_⟩
      intro hp
      simp only []
      obtain ⟨pnN, hlt, hpnn, hrc, hseq⟩ := hkey hp
      have h1 : upd1 s.pageinfo (pLook s2 va).pn
          ⟨(s.pageinfo (pLook s2 va).pn).owner, (s.pageinfo (pLook s2 va).pn).refcount + 1⟩
          (pLook s2 va).pn =
          ⟨(s.pageinfo (pLook s2 va).pn).owner, (s.pageinfo (pLook s2 va).pn).refcount + 1⟩ :=
        upd1_self _ _ _
      have ho : (s.pageinfo (pLook s2 va).pn).owner = (s2.pageinfo (pLook s2 va).pn).owner := by
        rw [hpnn]
        exact congrArg physical_pageinfo.owner hseq
      have hr : (s.pageinfo (pLook s2 va).pn).refcount =
          (s2.pageinfo (pLook s2 va).pn).refcount := by
        rw [hpnn]
        exact congrArg physical_pageinfo.refcount hseq
      constructor
      · rw [h1]
        exact ho
      · rw [h1]
        exact congrArg (fun x => x + 1) hr
  · unfold freeCount
    apply List.countP_congr
    intro i _
    unfold isFreePage pageinfoAt
    simp only []
    by_cases hip : ((i : Nat) : Int) = (pLook s2 va).pn
    · by_cases hp : (pLook s2 va).perm % 2 = 1
      · obtain ⟨pnN, hlt, hpnn, hrc, hseq⟩ := hkey hp
        have hie : i = pnN := by
          have : ((i : Nat) : Int) = ((pnN : Nat) : Int) := hip.trans hpnn
          exact_mod_cast this
        subst hie
        have hrs : 1 ≤ (s.pageinfo ((i : Nat) : Int)).refcount := by
          have := congrArg physical_pageinfo.refcount hseq
          simp only at this
          omega
        have h1 : upd1 s.pageinfo (pLook s2 va).pn
            ⟨(s.pageinfo (pLook s2 va).pn).owner, (s.pageinfo (pLook s2 va).pn).refcount + 1⟩
            ((i : Nat) : Int) =
            ⟨(s.pageinfo (pLook s2 va).pn).owner, (s.pageinfo (pLook s2 va).pn).refcount + 1⟩ := by
          rw [hip]
          exact upd1_self _ _ _
        have hrs2 : 1 ≤ (s.pageinfo (pLook s2 va).pn).refcount := by
          rw [← hip]
          exact hrs
        simp only [h1]
        rw [Bool.eq_iff_iff, Bool.and_eq_true, Bool.and_eq_true,
          decide_eq_true_eq, decide_eq_true_eq, decide_eq_true_eq, decide_eq_true_eq]
        constructor
        · intro hx
          exfalso
          have hx2 := (hx.mpr rfl).2
          omega
        · intro hx
          exfalso
          have hx2 := hx.2
          omega
      · exact absurd (hip.trans (hneg hp)) (by omega)
    · have h1 : upd1 s.pageinfo (pLook s2 va).pn
          ⟨(s.pageinfo (pLook s2 va).pn).owner, (s.pageinfo (pLook s2 va).pn).refcount + 1⟩
          ((i : Nat) : Int) = s.pageinfo ((i : Nat) : Int) :=
        upd1_other _ _ _ _ hip
      simp only [h1]

theorem forkShareStep_pres (s2 : KState) (chldPid : Int) (slot : Nat) (R : List Nat)
    (hne : forkNE s2 slot) (hnd : (presentPns s2).Nodup) (hwf : forkWF s2)
    (va : Nat) (hva : va ∈ privateVAs)
    (s : KState) (hInv : forkInv s2 chldPid slot R s)
    (va0 : Nat) (hva0 : va0 ∈ privateVAs) (hne0 : va0 ≠ va)
    (hc : forkConcl s2 chldPid slot va0 s) :
    forkConcl s2 chldPid slot va0 (forkShareStep s slot va) := by
  have heff := forkShareStep_effect s2 chldPid slot R s hInv hne va hva
  have hneq2 : ¬(childL2 s2 slot = childL2 s2 slot ∧
      PAGENUMBER va0 % PAGETABLE_NENTRIES = PAGENUMBER va % PAGETABLE_NENTRIES) :=
    fun hx => privateVA_vpn_inj va0 va hva0 hva hne0 hx.2
  rw [heff]
  constructor
  · intro hw0
    obtain ⟨z, hzlt, hz2, hzpi, hzl2, hzdat⟩ := hc.1 hw0
    have hzne : ((z : Nat) : Int) ≠ (pLook s2 va).pn := by
      by_cases hp : (pLook s2 va).perm % 2 = 1
      · obtain ⟨pnN, hlt, hpnn, hrc⟩ := (hwf va hva).2 hp
        rw [hpnn]
        intro hcast
        have hzz : z = pnN := by exact_mod_cast hcast
        subst hzz
        have hv : (0 : Int) = (s2.pageinfo ((z : Nat) : Int)).refcount :=
          (congrArg physical_pageinfo.refcount hz2).symm
        omega
      · rw [(pLook_shape s2 va hva).2.1 hp]
        omega
    exact ⟨z, hzlt, hz2, (upd1_other _ _ _ _ hzne).trans hzpi,
      (upd2_other _ _ _ _ _ _ hneq2).trans hzl2, hzdat⟩
  · intro hnw0
    obtain ⟨hel2, hpi⟩ := hc.2 hnw0
    refine ⟨(upd2_other _ _ _ _ _ _ hneq2).trans hel2, ?_⟩
    intro hp0
    obtain ⟨pn0, hlt0, hpn0, hrc0⟩ := (hwf va0 hva0).2 hp0
    have hne0pn : (pLook s2 va0).pn ≠ (pLook s2 va).pn := by
      by_cases hp : (pLook s2 va).perm % 2 = 1
      · exact presentPns_inj s2 hnd va0 va hva0 hva hne0 hp0 hp
      · rw [(pLook_shape s2 va hva).2.1 hp, hpn0]
        omega
    have h1 : upd1 s.pageinfo (pLook s2 va).pn
        ⟨(s.pageinfo (pLook s2 va).pn).owner, (s.pageinfo (pLook s2 va).pn).refcount + 1⟩
        (pLook s2 va0).pn = s.pageinfo (pLook s2 va0).pn :=
      upd1_other _ _ _ _ hne0pn
    exact ⟨(congrArg physical_pageinfo.owner h1).trans (hpi hp0).1,
      (congrArg physical_pageinfo.refcount h1).trans (hpi hp0).2⟩

theorem forkCopyStep_pres (s2 : KState) (chldPid : Int) (slot : Nat) (R : List Nat)
    (hnd : (presentPns s2).Nodup) (hwf : forkWF s2)
    (va : Nat) (hva : va ∈ privateVAs)
    (s : KState) (hInv : forkInv s2 chldPid slot R s)
    (a : Nat) (hfind : find_free_physical_page s = some a)
    (va0 : Nat) (hva0 : va0 ∈ privateVAs) (hne0 : va0 ≠ va)
    (hc : forkConcl s2 chldPid slot va0 s) :
    forkConcl s2 chldPid slot va0
      (forkCopyStep { s with pageinfo := upd1 s.pageinfo ((PAGENUMBER a : Nat) : Int) ⟨chldPid, 1⟩ }
        slot va (pLook s2 va) a) := by
  have heff := forkCopyStep_effect s2 chldPid slot s hInv.1 hInv.2.2.1 va hva
      ({ s with pageinfo := upd1 s.pageinfo ((PAGENUMBER a : Nat) : Int) ⟨chldPid, 1⟩ }) a
      (alloc_free_page_eq_of_find s chldPid a hfind) (pLook s2 va)
  obtain ⟨i, hilt, hia, hifree⟩ := find_free_physical_page_some s a hfind
  have hpna : PAGENUMBER a = i := by rw [hia, PAGENUMBER_PAGEADDRESS]
  have hfree : s.pageinfo ((PAGENUMBER a : Nat) : Int) = ⟨0, 0⟩ := by
    rw [hpna]
    exact hifree
  have hneq2 : ¬(childL2 s2 slot = childL2 s2 slot ∧
      PAGENUMBER va0 % PAGETABLE_NENTRIES = PAGENUMBER va % PAGETABLE_NENTRIES) :=
    fun hx => privateVA_vpn_inj va0 va hva0 hva hne0 hx.2
  rw [heff]
  constructor
  · intro hw0
    obtain ⟨z, hzlt, hz2, hzpi, hzl2, hzdat⟩ := hc.1 hw0
    have hzna : ((z : Nat) : Int) ≠ ((PAGENUMBER a : Nat) : Int) := by
      intro hcast
      have hS : s.pageinfo ((z : Nat) : Int) = ⟨0, 0⟩ := by
        rw [hcast]
        exact hfree
      have hv : (1 : Int) = 0 := congrArg physical_pageinfo.refcount (hzpi.symm.trans hS)
      exact absurd hv (by norm_num)
    have hzna' : z ≠ PAGENUMBER a := fun he => hzna (by rw [he])
    exact ⟨z, hzlt, hz2, (upd1_other _ _ _ _ hzna).trans hzpi,
      (upd2_other _ _ _ _ _ _ hneq2).trans hzl2,
      (updN_other _ _ _ _ hzna').trans hzdat⟩
  · intro hnw0
    obtain ⟨hel2, hpi⟩ := hc.2 hnw0
    refine ⟨(upd2_other _ _ _ _ _ _ hneq2).trans hel2, ?_⟩
    intro hp0
    obtain ⟨pn0, hlt0, hpn0, hrc0⟩ := (hwf va0 hva0).2 hp0
    have hrcS : (s.pageinfo (pLook s2 va0).pn).refcount =
        (s2.pageinfo (pLook s2 va0).pn).refcount + 1 := (hpi hp0).2
    have hna : (pLook s2 va0).pn ≠ ((PAGENUMBER a : Nat) : Int) := by
      intro hcast
      have hS : s.pageinfo (pLook s2 va0).pn = ⟨0, 0⟩ := by
        rw [hcast]
        exact hfree
      have h0 : (s.pageinfo (pLook s2 va0).pn).refcount = 0 := by
        rw [hS]
      have hS2 : (s2.pageinfo (pLook s2 va0).pn).refcount =
          (s2.pageinfo ((pn0 : Nat) : Int)).refcount := by
        rw [hpn0]
      omega
    have h1 : upd1 s.pageinfo ((PAGENUMBER a : Nat) : Int) ⟨chldPid, 1⟩ (pLook s2 va0).pn =
        s.pageinfo (pLook s2 va0).pn :=
      upd1_other _ _ _ _ hna
    exact ⟨(congrArg physical_pageinfo.owner h1).trans (hpi hp0).1,
      (congrArg physical_pageinfo.refcount h1).trans (hpi hp0).2⟩

theorem forkCopyStep_facts (s2 : KState) (chldPid : Int) (slot : Nat)
    (hnd : (presentPns s2).Nodup) (hwf : forkWF s2)
    (va : Nat) (rest' : List Nat) (hva : va ∈ privateVAs) (hnr : va ∉ rest')
    (s : KState) (hInv : forkInv s2 chldPid slot (va :: rest') s)
    (hw : wr (pLook s2 va))
    (a : Nat) (hfind : find_free_physical_page s = some a) :
    forkInv s2 chldPid slot rest'
      (forkCopyStep { s with pageinfo := upd1 s.pageinfo ((PAGENUMBER a : Nat) : Int) ⟨chldPid, 1⟩ }
        slot va (pLook s2 va) a) ∧
    forkConcl s2 chldPid slot va
      (forkCopyStep { s with pageinfo := upd1 s.pageinfo ((PAGENUMBER a : Nat) : Int) ⟨chldPid, 1⟩ }
        slot va (pLook s2 va) a) ∧
    freeCount
      (forkCopyStep { s with pageinfo := upd1 s.pageinfo ((PAGENUMBER a : Nat) : Int) ⟨chldPid, 1⟩ }
        slot va (pLook s2 va) a) + 1 = freeCount s := by
  have heff := forkCopyStep_effect s2 chldPid slot s hInv.1 hInv.2.2.1 va hva
      ({ s with pageinfo := upd1 s.pageinfo ((PAGENUMBER a : Nat) : Int) ⟨chldPid, 1⟩ }) a
      (alloc_free_page_eq_of_find s chldPid a hfind) (pLook s2 va)
  obtain ⟨i, hilt, hia, hifree⟩ := find_free_physical_page_some s a hfind
  have hpna : PAGENUMBER a = i := by rw [hia, PAGENUMBER_PAGEADDRESS]
  have halt : PAGENUMBER a < NPAGES := by
    rw [hpna]
    exact hilt
  have hfree : s.pageinfo ((PAGENUMBER a : Nat) : Int) = ⟨0, 0⟩ := by
    rw [hpna]
    exact hifree
  have hfree2 : s2.pageinfo ((PAGENUMBER a : Nat) : Int) = ⟨0, 0⟩ := by
    rcases hInv.2.2.2.2.2 (PAGENUMBER a) halt with hcase | hcase | hcase
    · exact hcase.symm.trans hfree
    · exact hcase.1
    · exfalso
      obtain ⟨va2, hva2, _, hp2, hpn2, _, hr2⟩ := hcase
      obtain ⟨pn2, hlt2, hpn2b, hrc2⟩ := (hwf va2 hva2).2 hp2
      have h0 : (s.pageinfo ((PAGENUMBER a : Nat) : Int)).refcount = 0 := by rw [hfree]
      have hrs2 : (s2.pageinfo ((PAGENUMBER a : Nat) : Int)).refcount =
          (s2.pageinfo ((pn2 : Nat) : Int)).refcount := by
        rw [← hpn2, hpn2b]
      omega
  have hp : (pLook s2 va).perm % 2 = 1 := (hwf va hva).1 hw
  obtain ⟨pnN, hltN, hpnN, hrcN⟩ := (hwf va hva).2 hp
  have hpa_pn : ((PAGENUMBER (pLook s2 va).pa : Nat) : Int) = ((pnN : Nat) : Int) :=
    ((pLook_shape s2 va hva).1 hp).symm.trans hpnN
  have hpa_pnN : PAGENUMBER (pLook s2 va).pa = pnN := by exact_mod_cast hpa_pn
  have hsrc : s.data (PAGENUMBER (pLook s2 va).pa) = s2.data (PAGENUMBER (pLook s2 va).pa) := by
    apply hInv.2.2.2.2.1
    rw [hpa_pnN]
    omega
  rw [heff]
  refine ⟨⟨hInv.1, hInv.2.1, hInv.2.2.1, ?_, ?_, ?_⟩, ⟨?_, ?_⟩, ?_⟩
  · intro pn hpn
    funext b
    exact (upd2_other _ _ _ _ _ _ (fun hx => hpn hx.1)).trans
      (congrFun (hInv.2.2.2.1 pn hpn) b)
  · intro pn hrcne
    have hnpn : pn ≠ PAGENUMBER a := by
      intro he
      apply hrcne
      rw [he, hfree2]
    exact (updN_other _ _ _ _ hnpn).trans (hInv.2.2.2.2.1 pn hrcne)
  · intro pn hpn6
    simp only []
    by_cases hip : ((pn : Nat) : Int) = ((PAGENUMBER a : Nat) : Int)
    · refine Or.inr (Or.inl ⟨?_, ?_⟩)
      · rw [hip]
        exact hfree2
      · have h1 : upd1 s.pageinfo ((PAGENUMBER a : Nat) : Int) ⟨chldPid, 1⟩
            ((pn : Nat) : Int) = ⟨chldPid, 1⟩ := by
          rw [hip]
          exact upd1_self _ _ _
        exact h1
    · have h1 : upd1 s.pageinfo ((PAGENUMBER a : Nat) : Int) ⟨chldPid, 1⟩ ((pn : Nat) : Int) =
          s.pageinfo ((pn : Nat) : Int) := upd1_other _ _ _ _ hip
      rcases hInv.2.2.2.2.2 pn hpn6 with hcase | hcase | hcase
      · exact Or.inl (h1.trans hcase)
      · exact Or.inr (Or.inl ⟨hcase.1, h1.trans hcase.2⟩)
      · obtain ⟨va2, hva2, hvnin, hp2, hpn2, ho2, hr2⟩ := hcase
        exact Or.inr (Or.inr ⟨va2, hva2, fun hm => hvnin (List.mem_cons_of_mem va hm),
          hp2, hpn2, (congrArg physical_pageinfo.owner h1).trans ho2,
          (congrArg physical_pageinfo.refcount h1).trans hr2⟩)
  · intro _
    refine ⟨PAGENUMBER a, halt, hfree2, upd1_self _ _ _, upd2_self _ _ _ _, ?_⟩
    exact (updN_self _ _ _).trans hsrc
  · intro hnw
    exact absurd hw hnw
  · have hcnt := freeCount_alloc s chldPid a
      (by rw [alloc_free_page_eq_of_find s chldPid a hfind])
    have hS1 : (alloc_free_page s chldPid).1 =
        { s with pageinfo := upd1 s.pageinfo ((PAGENUMBER a : Nat) : Int) ⟨chldPid, 1⟩ } :=
      congrArg Prod.fst (alloc_free_page_eq_of_find s chldPid a hfind)
    refine Eq.trans ?_ hcnt
    refine congrArg (fun x => x + 1) ?_
    apply freeCount_congr
    rw [hS1]

theorem forkLoop_success (s2 : KState) (chldPid : Int) (slot : Nat)
    (hne : forkNE s2 slot) (hnd : (presentPns s2).Nodup) (hwf : forkWF s2) :
    ∀ rest : List Nat, rest.Sublist privateVAs →
      ∀ s : KState, forkInv s2 chldPid slot rest s →
        wCount s2 rest ≤ freeCount s →
        (forkLoop s chldPid slot rest).2 = true ∧
        forkInv s2 chldPid slot [] (forkLoop s chldPid slot rest).1 ∧
        (∀ va ∈ rest, forkConcl s2 chldPid slot va (forkLoop s chldPid slot rest).1) ∧
        (∀ va0 ∈ privateVAs, va0 ∉ rest → forkConcl s2 chldPid slot va0 s →
          forkConcl s2 chldPid slot va0 (forkLoop s chldPid slot rest).1) := by
  intro rest
  induction rest with
  | nil =>
    intro _ s hInv _
    exact ⟨rfl, hInv, fun va hm => absurd hm (List.not_mem_nil va), fun va0 _ _ hc => hc⟩
  | cons va rest' ih =>
    intro hsub s hInv hcnt
    have hsub' : rest'.Sublist privateVAs := (List.sublist_cons_self va rest').trans hsub
    have hva : va ∈ privateVAs := hsub.subset (List.mem_cons_self va rest')
    have hndc : (va :: rest').Nodup := hsub.nodup privateVAs_nodup
    have hnr : va ∉ rest' := (List.nodup_cons.mp hndc).1
    have hstable := pLook_stable s2 chldPid slot (va :: rest') s hInv hne va
      (privateVA_facts va hva).2.2.2.1
    by_cases hw : wr (pLook s2 va)
    · have hwc : wCount s2 (va :: rest') = wCount s2 rest' + 1 := by
        unfold wCount
        rw [List.countP_cons]
        simp [hw]
      have hpos : 0 < freeCount s := by omega
      obtain ⟨a, hfind⟩ := freeCount_pos_find s hpos
      have halloc := alloc_free_page_eq_of_find s chldPid a hfind
      have hw' : (virtual_memory_lookup s ((s.processes s.current).p_pagetable) va).perm ≠ 0 ∧
          (virtual_memory_lookup s ((s.processes s.current).p_pagetable) va).perm / 2 % 2 = 1 := by
        rw [hstable]
        exact hw
      have heq := forkLoop_cons_copy s chldPid slot va rest'
        ({ s with pageinfo := upd1 s.pageinfo ((PAGENUMBER a : Nat) : Int) ⟨chldPid, 1⟩ }) a
        hw' halloc
      rw [hstable] at heq
      obtain ⟨hfInv, hfConcl, hfCount⟩ := forkCopyStep_facts s2 chldPid slot hnd hwf va rest'
        hva hnr s hInv hw a hfind
      obtain ⟨hok, hres, hall, hpres⟩ := ih hsub'
        (forkCopyStep
          { s with pageinfo := upd1 s.pageinfo ((PAGENUMBER a : Nat) : Int) ⟨chldPid, 1⟩ }
          slot va (pLook s2 va) a)
        hfInv (by omega)
      rw [heq]
      refine ⟨hok, hres, ?_, ?_⟩
      · intro vax hmem
        rcases List.mem_cons.mp hmem with rfl | hmem'
        · exact hpres vax hva hnr hfConcl
        · exact hall vax hmem'
      · intro va0 hva0 hnin0 hc0
        have hne0 : va0 ≠ va := fun he => hnin0 (he ▸ List.mem_cons_self va rest')
        have hc1 := forkCopyStep_pres s2 chldPid slot (va :: rest') hnd hwf va hva s hInv
          a hfind va0 hva0 hne0 hc0
        exact hpres va0 hva0 (fun hm => hnin0 (List.mem_cons_of_mem va hm)) hc1
    · have hwc : wCount s2 (va :: rest') = wCount s2 rest' := by
        unfold wCount
        rw [List.countP_cons]
        simp [hw]
      have hnw' : ¬((virtual_memory_lookup s ((s.processes s.current).p_pagetable) va).perm ≠ 0 ∧
          (virtual_memory_lookup s ((s.processes s.current).p_pagetable) va).perm / 2 % 2 = 1) := by
        rw [hstable]
        exact hw
      have heq := forkLoop_cons_share s chldPid slot va rest' hnw'
      obtain ⟨hfInv, hfConcl, hfCount⟩ := forkShareStep_facts s2 chldPid slot hne hnd hwf
        va rest' hva hnr s hInv
      obtain ⟨hok, hres, hall, hpres⟩ := ih hsub' (forkShareStep s slot va) hfInv (by omega)
      rw [heq]
      refine ⟨hok, hres, ?_, ?_⟩
      · intro vax hmem
        rcases List.mem_cons.mp hmem with rfl | hmem'
        · exact hpres vax hva hnr (hfConcl hw)
        · exact hall vax hmem'
      · intro va0 hva0 hnin0 hc0
        have hne0 : va0 ≠ va := fun he => hnin0 (he ▸ List.mem_cons_self va rest')
        have hc1 := forkShareStep_pres s2 chldPid slot (va :: rest') hne hnd hwf va hva s hInv
          va0 hva0 hne0 hc0
        exact hpres va0 hva0 (fun hm => hnin0 (List.mem_cons_of_mem va hm)) hc1

theorem alloc_free_page_frame (s : KState) (o : Int) (s' : KState) (r : Option Nat)
    (h : alloc_free_page s o = (s', r)) :
    s'.processes = s.processes ∧ s'.current = s.current ∧ s'.data = s.data ∧
    s'.l1 = s.l1 ∧ s'.l2 = s.l2 := by
  cases hf : find_free_physical_page s with
  | none =>
    rw [alloc_free_page_eq_of_none s o hf] at h
    cases h
    exact ⟨rfl, rfl, rfl, rfl, rfl⟩
  | some a =>
    rw [alloc_free_page_eq_of_find s o a hf] at h
    cases h
    exact ⟨rfl, rfl, rfl, rfl, rfl⟩

theorem copy_pagetable_procs (s : KState) (pt : Nat) (o : Int) (s1 : KState) (r : Option Nat)
    (h : copy_pagetable s pt o = (s1, r)) :
    s1.processes = s.processes ∧ s1.current = s.current ∧ s1.data = s.data := by
  unfold copy_pagetable at h
  rcases hA : alloc_free_page s o with ⟨sA, oA⟩
  rw [hA] at h
  obtain ⟨hA1, hA2, hA3, _, _⟩ := alloc_free_page_frame s o sA oA hA
  cases oA with
  | none =>
    cases h
    exact ⟨hA1, hA2, hA3⟩
  | some g1 =>
    simp only [] at h
    rcases hB : alloc_free_page sA o with ⟨sB, oB⟩
    rw [hB] at h
    obtain ⟨hB1, hB2, hB3, _, _⟩ := alloc_free_page_frame sA o sB oB hB
    cases oB with
    | none =>
      cases h
      exact ⟨hB1.trans hA1, hB2.trans hA2, hB3.trans hA3⟩
    | some g2 =>
      cases h
      exact ⟨hB1.trans hA1, hB2.trans hA2, hB3.trans hA3⟩

theorem fork_process_eq_loop (s : KState) (slot : Nat) (hslot1 : 1 ≤ slot)
    (hslot : find_free_process_slot s = ((slot : Nat) : Int))
    (s1 : KState) (pgtb : Nat)
    (hcpt : copy_pagetable s ((s.processes s.current).p_pagetable) ((slot : Nat) : Int) =
      (s1, some pgtb)) :
    fork_process s =
      (match forkLoop { s1 with processes := updP s1.processes slot { s1.processes slot with p_pagetable := pgtb, p_pid := ((slot : Nat) : Int) } } ((slot : Nat) : Int) slot privateVAs with
        | (s3, false) => (s3, -1)
        | (s3, true) =>
          ({ s3 with processes := updP s3.processes slot { s3.processes slot with p_registers := { (s3.processes s3.current).p_registers with reg_eax := 0 }, p_state := P_RUNNABLE } }, ((slot : Nat) : Int))) := by
  unfold fork_process
  simp only [hslot]
  have hne : ¬(((slot : Nat) : Int) = -1) := by omega
  rw [if_neg hne]
  simp only [Int.toNat_ofNat]
  rw [hcpt]

theorem lookup_of_l2_entry (sF : KState) (pt va z q : Nat)
    (hva : va % PAGESIZE = 0) (hvpn : PAGENUMBER va / PAGETABLE_NENTRIES = 0)
    (hl1 : (sF.l1 (PAGENUMBER pt) 0) % 2 = 1)
    (hentry : sF.l2 (PAGENUMBER (sF.l1 (PAGENUMBER pt) 0)) (PAGENUMBER va % PAGETABLE_NENTRIES) =
      PAGEADDRESS z + q)
    (hq : q < PAGESIZE) :
    virtual_memory_lookup sF pt va =
      ⟨if q % 2 = 1 then ((z : Nat) : Int) else -1, PAGEADDRESS z, q⟩ := by
  obtain ⟨hd1, hd2, hd3⟩ := entry_decode z q hq
  unfold virtual_memory_lookup
  simp only [hvpn]
  rw [if_pos hl1, hentry]
  simp only [hd1, hd2, hd3, hva, Nat.add_zero]

/-- C2: for a fork with a free slot (found as chld_pid = slot), a successful
page-table clone, well-formed parent mappings and at least as many free
physical pages as writable parent mappings, the loop succeeds and: every
writable parent mapping gives the child a fresh page charged to the child,
with the parent page contents and the parent permission, at the same virtual
address; every other mapping is replayed in the child table verbatim, a
present one gaining exactly one refcount with its owner unchanged; the child
descriptor keeps the parent registers except reg_eax = 0 and becomes
P_RUNNABLE; and the caller receives the child pid. -/
theorem fork_process_spec (s : KState) (slot : Nat) (s1 : KState) (pgtb : Nat) (s2 : KState)
    (hslot1 : 1 ≤ slot)
    (hslot : find_free_process_slot s = ((slot : Nat) : Int))
    (hcpt : copy_pagetable s ((s.processes s.current).p_pagetable) ((slot : Nat) : Int) =
      (s1, some pgtb))
    (hs2 : s2 = { s1 with processes := updP s1.processes slot { s1.processes slot with p_pagetable := pgtb, p_pid := ((slot : Nat) : Int) } })
    (hne : forkNE s2 slot) (hnd : (presentPns s2).Nodup) (hwf : forkWF s2)
    (hcur : s.current ≠ slot)
    (hl1c : (s2.l1 (PAGENUMBER pgtb) 0) % 2 = 1)
    (hcount : wCount s2 privateVAs ≤ freeCount s2) :
    (fork_process s).2 = ((slot : Nat) : Int) ∧
    ((fork_process s).1.processes slot).p_state = P_RUNNABLE ∧
    ((fork_process s).1.processes slot).p_registers =
      { (s.processes s.current).p_registers with reg_eax := 0 } ∧
    (∀ va ∈ privateVAs,
      (wr (pLook s2 va) →
        ∃ z : Nat, z < NPAGES ∧ s2.pageinfo ((z : Nat) : Int) = ⟨0, 0⟩ ∧
          (fork_process s).1.pageinfo ((z : Nat) : Int) = ⟨((slot : Nat) : Int), 1⟩ ∧
          virtual_memory_lookup (fork_process s).1 pgtb va =
            ⟨((z : Nat) : Int), PAGEADDRESS z, (pLook s2 va).perm⟩ ∧
          (fork_process s).1.data z = s2.data (PAGENUMBER (pLook s2 va).pa)) ∧
      (¬wr (pLook s2 va) →
        virtual_memory_lookup (fork_process s).1 pgtb va = pLook s2 va ∧
        ((pLook s2 va).perm % 2 = 1 →
          ((fork_process s).1.pageinfo (pLook s2 va).pn).owner =
            (s2.pageinfo (pLook s2 va).pn).owner ∧
          ((fork_process s).1.pageinfo (pLook s2 va).pn).refcount =
            (s2.pageinfo (pLook s2 va).pn).refcount + 1))) := by
  obtain ⟨hok, hres, hall, _⟩ := forkLoop_success s2 ((slot : Nat) : Int) slot hne hnd hwf
    privateVAs (List.Sublist.refl privateVAs) s2
    ⟨rfl, rfl, rfl, fun _ _ => rfl, fun _ _ => rfl, fun pn _ => Or.inl rfl⟩ hcount
  have hmain := fork_process_eq_loop s slot hslot1 hslot s1 pgtb hcpt
  rw [← hs2] at hmain
  rcases hLp : forkLoop s2 ((slot : Nat) : Int) slot privateVAs with ⟨s3, ok⟩
  rw [hLp] at hok hres hall hmain
  have hok2 : ok = true := hok
  subst hok2
  have hmain2 : fork_process s =
      ({ s3 with processes := updP s3.processes slot { s3.processes slot with p_registers := { (s3.processes s3.current).p_registers with reg_eax := 0 }, p_state := P_RUNNABLE } }, ((slot : Nat) : Int)) := hmain
  obtain ⟨hcp1, hcp2, hcp3⟩ := copy_pagetable_procs s ((s.processes s.current).p_pagetable)
    ((slot : Nat) : Int) s1 (some pgtb) hcpt
  have hs2cur : s2.current = s.current := by
    rw [hs2]
    exact hcp2
  have hs2par : s2.processes s.current = s.processes s.current := by
    rw [hs2]
    exact (updP_other _ _ _ _ hcur).trans (congrFun hcp1 s.current)
  have hpc : (s2.processes slot).p_pagetable = pgtb := by
    rw [hs2]
    exact congrArg proc.p_pagetable (updP_self s1.processes slot _)
  have hl1F : (fork_process s).1.l1 = s2.l1 := by
    rw [hmain2]
    exact hres.2.2.1
  have hrow : PAGENUMBER ((fork_process s).1.l1 (PAGENUMBER pgtb) 0) = childL2 s2 slot := by
    rw [hl1F]
    unfold childL2
    rw [hpc]
  have hl1p : ((fork_process s).1.l1 (PAGENUMBER pgtb) 0) % 2 = 1 := by
    rw [hl1F]
    exact hl1c
  refine ⟨?_, ?_, ?_, ?_⟩
  · rw [hmain2]
  · rw [hmain2]
    exact congrArg proc.p_state (updP_self s3.processes slot _)
  · rw [hmain2]
    have h3 : (s3.processes s3.current).p_registers = (s.processes s.current).p_registers := by
      rw [hres.1, hres.2.1, hs2cur]
      exact congrArg proc.p_registers hs2par
    rw [show (updP s3.processes slot { s3.processes slot with p_registers := { (s3.processes s3.current).p_registers with reg_eax := 0 }, p_state := P_RUNNABLE } slot).p_registers = { (s3.processes s3.current).p_registers with reg_eax := 0 } from congrArg proc.p_registers (updP_self _ _ _), h3]
  · intro va hva2
    have halign := (privateVA_facts va hva2).1
    have hvpn0 := (privateVA_facts va hva2).2.2.2.1
    have hplt : (pLook s2 va).perm < PAGESIZE :=
      lookup_perm_lt s2 ((s2.processes s2.current).p_pagetable) va
    have hqperm : (pLook s2 va).perm % PAGESIZE = (pLook s2 va).perm := Nat.mod_eq_of_lt hplt
    have hqlt : (pLook s2 va).perm % PAGESIZE < PAGESIZE := by omega
    constructor
    · intro hwva
      obtain ⟨z, hzlt, hz2, hzpi, hzl2, hzdat⟩ := (hall va hva2).1 hwva
      have hentry : (fork_process s).1.l2
          (PAGENUMBER ((fork_process s).1.l1 (PAGENUMBER pgtb) 0))
          (PAGENUMBER va % PAGETABLE_NENTRIES) =
          PAGEADDRESS z + (pLook s2 va).perm % PAGESIZE := by
        rw [hrow, hmain2]
        exact hzl2
      have hlk := lookup_of_l2_entry (fork_process s).1 pgtb va z
        ((pLook s2 va).perm % PAGESIZE) halign hvpn0 hl1p hentry hqlt
      rw [hqperm] at hlk
      rw [if_pos ((hwf va hva2).1 hwva)] at hlk
      refine ⟨z, hzlt, hz2, ?_, hlk, ?_⟩
      · rw [hmain2]
        exact hzpi
      · rw [hmain2]
        exact hzdat
    · intro hnwva
      obtain ⟨hel2, hpi⟩ := (hall va hva2).2 hnwva
      have hsh := pLook_shape s2 va hva2
      have hentry : (fork_process s).1.l2
          (PAGENUMBER ((fork_process s).1.l1 (PAGENUMBER pgtb) 0))
          (PAGENUMBER va % PAGETABLE_NENTRIES) =
          PAGEADDRESS (PAGENUMBER (pLook s2 va).pa) + (pLook s2 va).perm % PAGESIZE := by
        rw [hrow, hmain2]
        exact hel2
      have hlk := lookup_of_l2_entry (fork_process s).1 pgtb va (PAGENUMBER (pLook s2 va).pa)
        ((pLook s2 va).perm % PAGESIZE) halign hvpn0 hl1p hentry hqlt
      rw [hqperm] at hlk
      have h1 : (if (pLook s2 va).perm % 2 = 1 then ((PAGENUMBER (pLook s2 va).pa : Nat) : Int)
          else -1) = (pLook s2 va).pn := by
        by_cases hp : (pLook s2 va).perm % 2 = 1
        · rw [if_pos hp]
          exact (hsh.1 hp).symm
        · rw [if_neg hp]
          exact (hsh.2.1 hp).symm
      rw [h1, ← hsh.2.2] at hlk
      refine ⟨hlk, ?_⟩
      intro hp
      constructor
      · rw [hmain2]
        exact (hpi hp).1
      · rw [hmain2]
        exact (hpi hp).2

/-- A concrete pre-fork state: process 1 (root page 1, second level page 2)
is current and runnable with one writable private mapping (virtual page 256
to physical page 10, permission 7) and one read-only one (virtual page 257
to physical page 11, permission 5); slot 2 is free, pages 3 to 9 and 12
onward are free. -/
def sW2 : KState :=
  { pageinfo := fun i => if i = 0 then ⟨-2, 1⟩ else if i = 1 ∨ i = 2 ∨ i = 10 ∨ i = 11 then ⟨1, 1⟩ else ⟨0, 0⟩,
    processes := fun i => if i = 1 then ⟨1, P_RUNNABLE, PAGEADDRESS 1, ⟨7, 9⟩⟩ else ⟨0, P_FREE, 0, ⟨0, 0⟩⟩,
    l1 := fun r j => if r = 1 ∧ j = 0 then PAGEADDRESS 2 + 7 else 0,
    l2 := fun r j => if r = 2 ∧ j = 256 then PAGEADDRESS 10 + 7 else if r = 2 ∧ j = 257 then PAGEADDRESS 11 + 5 else 0,
    data := fun i => if i = 10 then 111 else if i = 11 then 222 else 0,
    current := 1 }

/-- The state after the page-table clone of the fork from sW2. -/
def sW2c : KState :=
  (copy_pagetable sW2 ((sW2.processes sW2.current).p_pagetable) ((2 : Nat) : Int)).1

/-- The fork loop entry state from sW2: the clone result with the child
descriptor installed in slot 2. -/
def sW2e : KState :=
  { sW2c with processes := updP sW2c.processes 2 { sW2c.processes 2 with p_pagetable := 12288, p_pid := ((2 : Nat) : Int) } }

theorem sW2_cpt : copy_pagetable sW2 ((sW2.processes sW2.current).p_pagetable)
    ((2 : Nat) : Int) = (sW2c, some 12288) := by
  have h2 : (copy_pagetable sW2 ((sW2.processes sW2.current).p_pagetable)
      ((2 : Nat) : Int)).2 = some 12288 := by decide
  exact Prod.ext rfl h2

set_option maxHeartbeats 4000000 in
theorem fork_process_spec_witness :
    (fork_process sW2).2 = ((2 : Nat) : Int) ∧
    ((fork_process sW2).1.processes 2).p_state = P_RUNNABLE :=
  ⟨(fork_process_spec sW2 2 sW2c 12288 sW2e (by norm_num) (by decide) sW2_cpt rfl
      (by decide) (by decide) (by decide) (by decide) (by decide) (by decide)).1,
    (fork_process_spec sW2 2 sW2c 12288 sW2e (by norm_num) (by decide) sW2_cpt rfl
      (by decide) (by decide) (by decide) (by decide) (by decide) (by decide)).2.1⟩

theorem forkLoop_fail (s2 : KState) (chldPid : Int) (slot : Nat)
    (hne : forkNE s2 slot) (hnd : (presentPns s2).Nodup) (hwf : forkWF s2) :
    ∀ rest : List Nat, rest.Sublist privateVAs →
      ∀ s : KState, forkInv s2 chldPid slot rest s →
        (forkLoop s chldPid slot rest).2 = false →
        ∃ s_mid : KState, ∃ pre rest' : List Nat, ∃ vaf : Nat,
          rest = pre ++ vaf :: rest' ∧
          wr (pLook s2 vaf) ∧
          find_free_physical_page s_mid = none ∧
          forkInv s2 chldPid slot (vaf :: rest') s_mid ∧
          (∀ va0 ∈ pre, forkConcl s2 chldPid slot va0 s_mid) ∧
          (∀ va0 ∈ privateVAs, va0 ∉ rest → forkConcl s2 chldPid slot va0 s →
            forkConcl s2 chldPid slot va0 s_mid) ∧
          (forkLoop s chldPid slot rest).1 = free_current_process s_mid slot := by
  intro rest
  induction rest with
  | nil =>
    intro _ s hInv hfail
    have hcon : (true : Bool) = false := hfail
    exact Bool.noConfusion hcon
  | cons va rest'' ih =>
    intro hsub s hInv hfail
    have hsub' : rest''.Sublist privateVAs := (List.sublist_cons_self va rest'').trans hsub
    have hva : va ∈ privateVAs := hsub.subset (List.mem_cons_self va rest'')
    have hndc : (va :: rest'').Nodup := hsub.nodup privateVAs_nodup
    have hnr : va ∉ rest'' := (List.nodup_cons.mp hndc).1
    have hstable := pLook_stable s2 chldPid slot (va :: rest'') s hInv hne va
      (privateVA_facts va hva).2.2.2.1
    by_cases hw : wr (pLook s2 va)
    · cases hfind : find_free_physical_page s with
      | none =>
        have halloc := alloc_free_page_eq_of_none s chldPid hfind
        have hw' : (virtual_memory_lookup s ((s.processes s.current).p_pagetable) va).perm ≠ 0 ∧
            (virtual_memory_lookup s ((s.processes s.current).p_pagetable) va).perm / 2 % 2
              = 1 := by
          rw [hstable]
          exact hw
        have heq := forkLoop_cons_copyfail s chldPid slot va rest'' s hw' halloc
        refine ⟨s, [], rest'', va, rfl, hw, hfind, hInv, ?_, ?_, ?_⟩
        · intro va0 hm
          exact absurd hm (List.not_mem_nil va0)
        · intro va0 _ _ hc
          exact hc
        · rw [heq]
      | some a =>
        have halloc := alloc_free_page_eq_of_find s chldPid a hfind
        have hw' : (virtual_memory_lookup s ((s.processes s.current).p_pagetable) va).perm ≠ 0 ∧
            (virtual_memory_lookup s ((s.processes s.current).p_pagetable) va).perm / 2 % 2
              = 1 := by
          rw [hstable]
          exact hw
        have heq := forkLoop_cons_copy s chldPid slot va rest''
          ({ s with pageinfo := upd1 s.pageinfo ((PAGENUMBER a : Nat) : Int) ⟨chldPid, 1⟩ }) a
          hw' halloc
        rw [hstable] at heq
        rw [heq] at hfail
        obtain ⟨hfInv, hfConcl, _⟩ := forkCopyStep_facts s2 chldPid slot hnd hwf va rest''
          hva hnr s hInv hw a hfind
        obtain ⟨s_mid, pre, rest', vaf, hsplit, hwf2, hfindn, hInvm, hpre, hpresm, hresm⟩ :=
          ih hsub'
            (forkCopyStep
              { s with pageinfo := upd1 s.pageinfo ((PAGENUMBER a : Nat) : Int) ⟨chldPid, 1⟩ }
              slot va (pLook s2 va) a)
            hfInv hfail
        refine ⟨s_mid, va :: pre, rest', vaf, by rw [hsplit, List.cons_append], hwf2, hfindn, hInvm, ?_, ?_, ?_⟩
        · intro va0 hm
          rcases List.mem_cons.mp hm with rfl | hm'
          · exact hpresm va0 hva (hsplit ▸ hnr) hfConcl
          · exact hpre va0 hm'
        · intro va0 hva0 hnin hc
          have hne0 : va0 ≠ va := fun he => hnin (he ▸ List.mem_cons_self va rest'')
          have hc1 := forkCopyStep_pres s2 chldPid slot (va :: rest'') hnd hwf va hva s hInv
            a hfind va0 hva0 hne0 hc
          exact hpresm va0 hva0 (fun hm => hnin (List.mem_cons_of_mem va hm)) hc1
        · rw [heq]
          exact hresm
    · have hnw' : ¬((virtual_memory_lookup s ((s.processes s.current).p_pagetable) va).perm ≠ 0 ∧
          (virtual_memory_lookup s ((s.processes s.current).p_pagetable) va).perm / 2 % 2
            = 1) := by
        rw [hstable]
        exact hw
      have heq := forkLoop_cons_share s chldPid slot va rest'' hnw'
      rw [heq] at hfail
      obtain ⟨hfInv, hfConcl, _⟩ := forkShareStep_facts s2 chldPid slot hne hnd hwf
        va rest'' hva hnr s hInv
      obtain ⟨s_mid, pre, rest', vaf, hsplit, hwf2, hfindn, hInvm, hpre, hpresm, hresm⟩ :=
        ih hsub' (forkShareStep s slot va) hfInv hfail
      refine ⟨s_mid, va :: pre, rest', vaf, by rw [hsplit, List.cons_append], hwf2, hfindn, hInvm, ?_, ?_, ?_⟩
      · intro va0 hm
        rcases List.mem_cons.mp hm with rfl | hm'
        · exact hpresm va0 hva (hsplit ▸ hnr) (hfConcl hw)
        · exact hpre va0 hm'
      · intro va0 hva0 hnin hc
        have hne0 : va0 ≠ va := fun he => hnin (he ▸ List.mem_cons_self va rest'')
        have hc1 := forkShareStep_pres s2 chldPid slot (va :: rest'') hne hnd hwf va hva s hInv
          va0 hva0 hne0 hc
        exact hpresm va0 hva0 (fun hm => hnin (List.mem_cons_of_mem va hm)) hc1
      · rw [heq]
        exact hresm

/-- A pre-fork state in which the clone of the page table will consume the
only two free pages (3 and 4): process 1 is current with a read-only shared
mapping (virtual page 256 to physical page 11, permission 5) and a writable
one (virtual page 257 to physical page 10, permission 7); every other page is
taken, so the loop's allocation for the writable mapping must fail. -/
def sC3 : KState :=
  { pageinfo := fun i => if i = 0 then ⟨-2, 1⟩ else if i = 1 ∨ i = 2 ∨ i = 10 ∨ i = 11 then ⟨1, 1⟩ else if i = 3 ∨ i = 4 then ⟨0, 0⟩ else ⟨-1, 1⟩,
    processes := fun i => if i = 1 then ⟨1, P_RUNNABLE, PAGEADDRESS 1, ⟨7, 9⟩⟩ else ⟨0, P_FREE, 0, ⟨0, 0⟩⟩,
    l1 := fun r j => if r = 1 ∧ j = 0 then PAGEADDRESS 2 + 7 else 0,
    l2 := fun r j => if r = 2 ∧ j = 256 then PAGEADDRESS 11 + 5 else if r = 2 ∧ j = 257 then PAGEADDRESS 10 + 7 else 0,
    data := fun i => if i = 10 then 111 else if i = 11 then 222 else 0,
    current := 1 }

/-- The state after the page-table clone of the failing fork from sC3. -/
def sC3c : KState :=
  (copy_pagetable sC3 ((sC3.processes sC3.current).p_pagetable) ((2 : Nat) : Int)).1

/-- The fork loop entry state from sC3. -/
def sC3e : KState :=
  { sC3c with processes := updP sC3c.processes 2 { sC3c.processes 2 with p_pagetable := 12288, p_pid := ((2 : Nat) : Int) } }

theorem sC3_cpt : copy_pagetable sC3 ((sC3.processes sC3.current).p_pagetable)
    ((2 : Nat) : Int) = (sC3c, some 12288) := by
  have h2 : (copy_pagetable sC3 ((sC3.processes sC3.current).p_pagetable)
      ((2 : Nat) : Int)).2 = some 12288 := by decide
  exact Prod.ext rfl h2

theorem sC3e_eq : sC3e =
    { sC3c with processes := updP sC3c.processes 2 { sC3c.processes 2 with p_pagetable := 12288, p_pid := ((2 : Nat) : Int) } } := rfl

set_option maxHeartbeats 4000000 in
/-- C3: a fork whose mid-copy allocation fails returns -1 after tearing the
child down, but the parent's shared page ledger is NOT restored: the
read-only page 11, shared at the first private address before the failure,
keeps the incremented refcount 2 (owner 1, the parent), because
free_current_process only reclaims entries owned by the child.  The claim
says every ledger entry of a page the parent owns or shares is as before. -/
theorem fork_alloc_fail_refcount_leak :
    (fork_process sC3).2 = -1 ∧
    sC3.pageinfo ((11 : Nat) : Int) = ⟨1, 1⟩ ∧
    (fork_process sC3).1.pageinfo ((11 : Nat) : Int) = ⟨1, 2⟩ := by
  have hmain := fork_process_eq_loop sC3 2 (by norm_num) (by decide) sC3c 12288 sC3_cpt
  rw [← sC3e_eq] at hmain
  have hfail : (forkLoop sC3e ((2 : Nat) : Int) 2 privateVAs).2 = false := by decide
  obtain ⟨s_mid, pre, rest', vaf, hsplit, hwrf, hfindn, hInvm, hpre, _, hres⟩ :=
    forkLoop_fail sC3e ((2 : Nat) : Int) 2 (by decide) (by decide) (by decide)
      privateVAs (List.Sublist.refl privateVAs) sC3e
      ⟨rfl, rfl, rfl, fun _ _ => rfl, fun _ _ => rfl, fun pn _ => Or.inl rfl⟩ hfail
  have hvaf_mem : vaf ∈ privateVAs := by
    rw [hsplit]
    exact List.mem_append_right pre (List.mem_cons_self vaf rest')
  have hvaf : vaf = 1052672 := by
    have huniq : ∀ va ∈ privateVAs, wr (pLook sC3e va) → va = 1052672 := by decide
    exact huniq vaf hvaf_mem hwrf
  have hcomb : (1048576 : Nat) :: List.tail privateVAs = pre ++ vaf :: rest' := hsplit
  have h256 : (1048576 : Nat) ∈ pre := by
    cases pre with
    | nil =>
      exfalso
      have h2 : (1048576 : Nat) :: List.tail privateVAs = vaf :: rest' := hcomb
      have h3 : (1048576 : Nat) = vaf := by
        injection h2 with ha hb
      rw [hvaf] at h3
      exact absurd h3 (by norm_num)
    | cons x pre' =>
      have h2 : (1048576 : Nat) :: List.tail privateVAs = x :: (pre' ++ vaf :: rest') := hcomb
      have h3 : (1048576 : Nat) = x := by
        injection h2 with ha hb
      rw [← h3]
      exact List.mem_cons_self 1048576 pre'
  have hConcl256 := hpre 1048576 h256
  have hnw256 : ¬wr (pLook sC3e 1048576) := by decide
  obtain ⟨_, hpi⟩ := hConcl256.2 hnw256
  have hpres256 : (pLook sC3e 1048576).perm % 2 = 1 := by decide
  obtain ⟨how, hrc⟩ := hpi hpres256
  have hpn11 : (pLook sC3e 1048576).pn = ((11 : Nat) : Int) := by decide
  rw [hpn11] at how hrc
  have hs2v : sC3e.pageinfo ((11 : Nat) : Int) = ⟨1, 1⟩ := by decide
  have hmid : s_mid.pageinfo ((11 : Nat) : Int) = ⟨1, 2⟩ := by
    rw [hs2v] at how hrc
    have how2 : (s_mid.pageinfo ((11 : Nat) : Int)).owner = 1 := how
    have hrc2 : (s_mid.pageinfo ((11 : Nat) : Int)).refcount = 1 + 1 := hrc
    cases hv : s_mid.pageinfo ((11 : Nat) : Int) with
    | mk o r =>
      rw [hv] at how2 hrc2
      have ho : o = 1 := how2
      have hr : r = (2 : Int) := by
        have hr0 : r = 1 + 1 := hrc2
        omega
      rw [ho, hr]
  have hpid : (s_mid.processes 2).p_pid = ((2 : Nat) : Int) := by
    rw [congrFun hInvm.1 2]
    decide
  have hspec := free_current_process_spec s_mid 2
  have hfin : (free_current_process s_mid 2).pageinfo ((11 : Nat) : Int) = ⟨1, 2⟩ := by
    rw [hspec.2.2.2.2.2.2.1 11 (by norm_num [NPAGES])]
    rw [hpid]
    unfold exitEntry
    have hb : (setPState s_mid 2 P_BLOCKED).pageinfo ((11 : Nat) : Int) = ⟨1, 2⟩ := hmid
    rw [hb]
    rw [if_neg (by decide)]
  rcases hLp : forkLoop sC3e ((2 : Nat) : Int) 2 privateVAs with ⟨r1, okb⟩
  rw [hLp] at hres hfail hmain
  have hok2 : okb = false := hfail
  subst hok2
  have hmain2 : fork_process sC3 = (r1, -1) := hmain
  have hr1 : r1 = free_current_process s_mid 2 := hres
  refine ⟨?_, by decide, ?_⟩
  · rw [hmain2]
  · rw [hmain2]
    have hgoal : r1.pageinfo ((11 : Nat) : Int) = ⟨1, 2⟩ := by
      rw [hr1]
      exact hfin
    exact hgoal

/-
  C5: reachability invariants of the memory ledger (virtual_memory_check).
-/

/-- Structural well-formedness of one live process, as kernel.c maintains it:
the translation root is an aligned physical page owned by the process with
refcount 1; entry 0 of the root names the process's second-level page, also
owned with refcount 1 and distinct from the root; every other root entry is
zero; every private-region entry of the second level is empty or a writable
user mapping of the process's own data page, distinct from its table pages;
and distinct present private entries name distinct pages. -/
def procOK (s : KState) (i : Nat) : Prop :=
  1 ≤ i ∧
  (s.processes i).p_pagetable = PAGEADDRESS (PAGENUMBER ((s.processes i).p_pagetable)) ∧
  PAGENUMBER ((s.processes i).p_pagetable) < NPAGES ∧
  pageinfoAt s (PAGENUMBER ((s.processes i).p_pagetable)) = ⟨(i : Int), 1⟩ ∧
  s.l1 (PAGENUMBER ((s.processes i).p_pagetable)) 0 =
    PAGEADDRESS (PAGENUMBER (s.l1 (PAGENUMBER ((s.processes i).p_pagetable)) 0)) + 7 ∧
  PAGENUMBER (s.l1 (PAGENUMBER ((s.processes i).p_pagetable)) 0) < NPAGES ∧
  pageinfoAt s (PAGENUMBER (s.l1 (PAGENUMBER ((s.processes i).p_pagetable)) 0)) =
    ⟨(i : Int), 1⟩ ∧
  PAGENUMBER (s.l1 (PAGENUMBER ((s.processes i).p_pagetable)) 0) ≠
    PAGENUMBER ((s.processes i).p_pagetable) ∧
  (∀ j, j < PAGETABLE_NENTRIES → 1 ≤ j →
    s.l1 (PAGENUMBER ((s.processes i).p_pagetable)) j = 0) ∧
  (∀ v, v < 768 → 256 ≤ v →
    s.l2 (PAGENUMBER (s.l1 (PAGENUMBER ((s.processes i).p_pagetable)) 0)) v = 0 ∨
    (∃ dpn : Nat, dpn < NPAGES ∧
      s.l2 (PAGENUMBER (s.l1 (PAGENUMBER ((s.processes i).p_pagetable)) 0)) v =
        PAGEADDRESS dpn + 7 ∧
      pageinfoAt s dpn = ⟨(i : Int), 1⟩ ∧
      dpn ≠ PAGENUMBER ((s.processes i).p_pagetable) ∧
      dpn ≠ PAGENUMBER (s.l1 (PAGENUMBER ((s.processes i).p_pagetable)) 0))) ∧
  (∀ v1, v1 < 768 → 256 ≤ v1 → ∀ v2, v2 < 768 → 256 ≤ v2 → v1 ≠ v2 →
    s.l2 (PAGENUMBER (s.l1 (PAGENUMBER ((s.processes i).p_pagetable)) 0)) v1 % 2 = 1 →
    s.l2 (PAGENUMBER (s.l1 (PAGENUMBER ((s.processes i).p_pagetable)) 0)) v2 % 2 = 1 →
    PAGENUMBER (s.l2 (PAGENUMBER (s.l1 (PAGENUMBER ((s.processes i).p_pagetable)) 0)) v1) ≠
    PAGENUMBER (s.l2 (PAGENUMBER (s.l1 (PAGENUMBER ((s.processes i).p_pagetable)) 0)) v2))

/-- The strengthened machine invariant: kernel table pages fixed and owned by
the kernel; process ids match slots; slot 0 free; the running slot in range;
every ledger entry either free as owner 0 refcount 0, or refcount exactly 1
with a nonzero owner; every entry with a nonnegative owner and refcount 1
names a live user process; and every live process is structurally well
formed. -/
def InvS (kroot kl2 : Nat) (s : KState) : Prop :=
  kroot < NPAGES ∧ kl2 < NPAGES ∧ kroot ≠ kl2 ∧
  pageinfoAt s kroot = ⟨PO_KERNEL, 1⟩ ∧
  pageinfoAt s kl2 = ⟨PO_KERNEL, 1⟩ ∧
  s.l1 kroot 0 = PAGEADDRESS kl2 + 7 ∧
  (∀ j, j < PAGETABLE_NENTRIES → 1 ≤ j → s.l1 kroot j = 0) ∧
  (∀ i, i < NPROC → (s.processes i).p_pid = (i : Int)) ∧
  (s.processes 0).p_state = P_FREE ∧
  (1 ≤ s.current ∧ s.current < NPROC) ∧
  (∀ pn, pn < NPAGES → (pageinfoAt s pn = ⟨0, 0⟩ ∨
    ((pageinfoAt s pn).refcount = 1 ∧ (pageinfoAt s pn).owner ≠ 0))) ∧
  (∀ pn, pn < NPAGES → 0 ≤ (pageinfoAt s pn).owner → (pageinfoAt s pn).refcount = 1 →
    ((pageinfoAt s pn).owner.toNat < NPROC ∧ 1 ≤ (pageinfoAt s pn).owner.toNat ∧
      (s.processes (pageinfoAt s pn).owner.toNat).p_state ≠ P_FREE)) ∧
  (∀ i, i < NPROC → (s.processes i).p_state ≠ P_FREE → procOK s i)

set_option synthInstance.maxSize 2000 in
set_option synthInstance.maxHeartbeats 1000000 in
instance (s : KState) (i : Nat) : Decidable (procOK s i) := by
  unfold procOK
  infer_instance

instance (kroot kl2 : Nat) (s : KState) : Decidable (InvS kroot kl2 s) := by
  unfold InvS
  infer_instance

/-- The memory invariants checked by virtual_memory_check from kernel.c, as
claimed: slot 0 free; the kernel root owned by the kernel with refcount 1
plus the number of live processes still running on the kernel root; every
live process with its own root owning that root with refcount 1, and every
present entry of that root naming a second-level page owned by the same
owner with refcount 1 (likewise for the kernel root's entries, owned by the
kernel); and every ledger entry with positive refcount and nonnegative owner
naming a live process. -/
def VMCheck (kroot : Nat) (s : KState) : Prop :=
  (s.processes 0).p_state = P_FREE ∧
  (pageinfoAt s kroot).owner = PO_KERNEL ∧
  (pageinfoAt s kroot).refcount = 1 +
    ((List.range NPROC).countP (fun pid =>
      decide ((s.processes pid).p_state ≠ P_FREE ∧
        (s.processes pid).p_pagetable = PAGEADDRESS kroot)) : Int) ∧
  (∀ j, j < PAGETABLE_NENTRIES → s.l1 kroot j % 2 = 1 →
    PAGENUMBER (s.l1 kroot j) < NPAGES ∧
    (pageinfoAt s (PAGENUMBER (s.l1 kroot j))).owner = PO_KERNEL ∧
    (pageinfoAt s (PAGENUMBER (s.l1 kroot j))).refcount = 1) ∧
  (∀ pid, pid < NPROC → (s.processes pid).p_state ≠ P_FREE →
    (s.processes pid).p_pagetable ≠ PAGEADDRESS kroot →
    PAGENUMBER ((s.processes pid).p_pagetable) < NPAGES ∧
    pageinfoAt s (PAGENUMBER ((s.processes pid).p_pagetable)) = ⟨(pid : Int), 1⟩ ∧
    (∀ j, j < PAGETABLE_NENTRIES →
      s.l1 (PAGENUMBER ((s.processes pid).p_pagetable)) j % 2 = 1 →
      PAGENUMBER (s.l1 (PAGENUMBER ((s.processes pid).p_pagetable)) j) < NPAGES ∧
      pageinfoAt s (PAGENUMBER (s.l1 (PAGENUMBER ((s.processes pid).p_pagetable)) j)) =
        ⟨(pid : Int), 1⟩)) ∧
  (∀ pn, pn < NPAGES → 0 < (pageinfoAt s pn).refcount → 0 ≤ (pageinfoAt s pn).owner →
    (pageinfoAt s pn).owner.toNat < NPROC ∧
    (s.processes (pageinfoAt s pn).owner.toNat).p_state ≠ P_FREE)

/-- One scheduler-visible transition of the kernel between traps: picking a
runnable process to run, the page-allocate syscall, fork, or exit, all
raised by a runnable current process (fork and exit as modelled from
kernel.c, the trap prologue register copy being part of the page-allocate
case). -/
inductive Step : KState → KState → Prop where
  | schedule (s : KState) (p : Nat) (hp : p < NPROC)
      (hr : (s.processes p).p_state = P_RUNNABLE) : Step s { s with current := p }
  | page_alloc (s : KState) (reg : x86_registers)
      (hr : (s.processes s.current).p_state = P_RUNNABLE) :
      Step s (exception_sys_page_alloc s reg)
  | fork (s : KState) (hr : (s.processes s.current).p_state = P_RUNNABLE) :
      Step s (fork_process s).1
  | exit (s : KState) (hr : (s.processes s.current).p_state = P_RUNNABLE) :
      Step s (free_current_process s s.current)

/-- Reachability from a boot state by scheduler-visible transitions. -/
inductive Reach (init : KState) : KState → Prop where
  | refl : Reach init init
  | step (s t : KState) (h : Reach init s) (hs : Step s t) : Reach init t

/-- Modelled from the spec: the state right after kernel boot with one loaded
process, as kernel() and process_setup build it.  The kernel root is page 1
with its second level page 2 (whose identity content is irrelevant to the
ledger invariants and left zero); page 0 is reserved; process 1 is runnable
with root page 3, second level page 4, one loaded program page 5 mapped
writable and user-accessible at the base of the private region, and a stack
page 6 mapped at the top; all remaining pages are free. -/
def InitK : KState :=
  { pageinfo := fun i => if i = 0 then ⟨-1, 1⟩ else if i = 1 ∨ i = 2 then ⟨-2, 1⟩ else if i = 3 ∨ i = 4 ∨ i = 5 ∨ i = 6 then ⟨1, 1⟩ else ⟨0, 0⟩,
    processes := fun i => if i = 1 then ⟨1, P_RUNNABLE, PAGEADDRESS 3, ⟨0, 0⟩⟩ else ⟨(i : Int), P_FREE, 0, ⟨0, 0⟩⟩,
    l1 := fun r j => if r = 1 ∧ j = 0 then PAGEADDRESS 2 + 7 else if r = 3 ∧ j = 0 then PAGEADDRESS 4 + 7 else 0,
    l2 := fun r j => if r = 4 ∧ j = 256 then PAGEADDRESS 5 + 7 else if r = 4 ∧ j = 767 then PAGEADDRESS 6 + 7 else 0,
    data := fun _ => 0,
    current := 1 }

theorem InvS_InitK : InvS 1 2 InitK := by
  refine ⟨by norm_num [NPAGES], by norm_num [NPAGES], by norm_num, by decide, by decide,
    by decide, ?_, ?_, by decide, by decide, ?_, ?_, ?_⟩
  · intro j _ h1j
    simp only [InitK]
    rw [if_neg (show ¬(True ∧ j = 0) from fun hx => by omega),
      if_neg (show ¬(1 = 3 ∧ j = 0) from fun hx => by omega)]
  · intro i _
    simp only [InitK]
    by_cases h1 : i = 1
    · subst h1
      rfl
    · rw [if_neg h1]
  · intro pn _
    simp only [pageinfoAt, InitK]
    split
    · right
      refine ⟨rfl, ?_⟩
      decide
    · split
      · right
        refine ⟨rfl, ?_⟩
        decide
      · split
        · right
          refine ⟨rfl, ?_⟩
          decide
        · left
          rfl
  · intro pn _
    simp only [pageinfoAt, InitK]
    split
    · decide
    · split
      · decide
      · split
        · decide
        · decide
  · intro i _ hne
    have h1 : i = 1 := by
      by_contra hne1
      apply hne
      simp only [InitK]
      rw [if_neg hne1]
    subst h1
    have hpt : PAGENUMBER ((InitK.processes 1).p_pagetable) = 3 := by decide
    have hrow : PAGENUMBER (InitK.l1 (PAGENUMBER ((InitK.processes 1).p_pagetable)) 0) = 4 := by
      decide
    refine ⟨by norm_num, by decide, by decide, by decide, by decide, by decide, by decide,
      by decide, ?_, ?_, ?_⟩
    · intro j _ h1j
      rw [hpt]
      simp only [InitK]
      rw [if_neg (show ¬(3 = 1 ∧ j = 0) from fun hx => by omega),
        if_neg (show ¬(True ∧ j = 0) from fun hx => by omega)]
    · intro v hv hv256
      rw [hrow, hpt]
      by_cases hv1 : v = 256
      · subst hv1
        right
        exact ⟨5, by norm_num [NPAGES], by decide, by decide, by decide, by decide⟩
      · by_cases hv2 : v = 767
        · subst hv2
          right
          exact ⟨6, by norm_num [NPAGES], by decide, by decide, by decide, by decide⟩
        · left
          simp only [InitK]
          rw [if_neg (show ¬(True ∧ v = 256) from fun hx => hv1 hx.2),
            if_neg (show ¬(True ∧ v = 767) from fun hx => hv2 hx.2)]
    · intro v1 hv1 hv1' v2 hv2 hv2' hne12 hp1 hp2
      rw [hrow] at hp1 hp2 ⊢
      have hmem : ∀ v : Nat, InitK.l2 4 v % 2 = 1 → v = 256 ∨ v = 767 := by
        intro v hp
        by_contra hcon
        push_neg at hcon
        have hz : InitK.l2 4 v = 0 := by
          simp only [InitK]
          rw [if_neg (show ¬(True ∧ v = 256) from fun hx => hcon.1 hx.2),
            if_neg (show ¬(True ∧ v = 767) from fun hx => hcon.2 hx.2)]
        rw [hz] at hp
        norm_num at hp
      rcases hmem v1 hp1 with h1 | h1 <;> rcases hmem v2 hp2 with h2 | h2
      · exact absurd (h1.trans h2.symm) hne12
      · subst h1
        subst h2
        decide
      · subst h1
        subst h2
        decide
      · exact absurd (h1.trans h2.symm) hne12

theorem exitEntry_other (b : KState) (pid : Int) (i : Nat)
    (h : (b.pageinfo (i : Int)).owner ≠ pid) : exitEntry b pid i = b.pageinfo (i : Int) := by
  unfold exitEntry
  rw [if_neg h]

theorem exitEntry_own1 (b : KState) (pid : Int) (i : Nat)
    (h : (b.pageinfo (i : Int)).owner = pid)
    (hrc : (b.pageinfo (i : Int)).refcount = 1) : exitEntry b pid i = ⟨0, 0⟩ := by
  unfold exitEntry
  rw [if_pos h]
  rw [if_neg (show ¬(1 < (b.pageinfo (i : Int)).refcount) from by omega), if_pos hrc]
  rfl

theorem InvS_VMCheck (kroot kl2 : Nat) (s : KState) (h : InvS kroot kl2 s) :
    VMCheck kroot s := by
  obtain ⟨h1, h2, h3, h4, h5, h6, h7, h8, h9, h10, h11, h12, h13⟩ := h
  have hshare : ((List.range NPROC).countP (fun pid =>
      decide ((s.processes pid).p_state ≠ P_FREE ∧
        (s.processes pid).p_pagetable = PAGEADDRESS kroot))) = 0 := by
    rw [List.countP_eq_zero]
    intro pid hmem
    rw [decide_eq_true_eq]
    intro ⟨hlive, hpt⟩
    have hpOK := h13 pid (List.mem_range.mp hmem) hlive
    have hroot := hpOK.2.2.2.1
    rw [hpt, PAGENUMBER_PAGEADDRESS] at hroot
    rw [h4] at hroot
    have := congrArg physical_pageinfo.owner hroot
    simp only [PO_KERNEL] at this
    omega
  refine ⟨h9, ?_, ?_, ?_, ?_, ?_⟩
  · rw [h4]
  · rw [h4, hshare]
    rfl
  · intro j hj hp
    by_cases hj0 : j = 0
    · subst hj0
      rw [h6]
      have hd := entry_decode kl2 7 (by norm_num [PAGESIZE])
      rw [hd.1]
      exact ⟨h2, by rw [h5], by rw [h5]⟩
    · rw [h7 j hj (by omega)] at hp
      norm_num at hp
  · intro pid hpid hlive _
    have hpOK := h13 pid hpid hlive
    refine ⟨hpOK.2.2.1, hpOK.2.2.2.1, ?_⟩
    intro j hj hp
    by_cases hj0 : j = 0
    · subst hj0
      exact ⟨hpOK.2.2.2.2.2.1, hpOK.2.2.2.2.2.2.1⟩
    · rw [hpOK.2.2.2.2.2.2.2.2.1 j hj (by omega)] at hp
      norm_num at hp
  · intro pn hpn hrc how
    rcases h11 pn hpn with hfree | hone
    · exfalso
      rw [hfree] at hrc
      exact absurd hrc (by decide)
    · have := h12 pn hpn how hone.1
      exact ⟨this.1, this.2.2⟩

theorem InvS_schedule (kroot kl2 : Nat) (s : KState) (p : Nat) (h : InvS kroot kl2 s)
    (hp : p < NPROC) (hr : (s.processes p).p_state = P_RUNNABLE) :
    InvS kroot kl2 { s with current := p } := by
  obtain ⟨h1, h2, h3, h4, h5, h6, h7, h8, h9, h10, h11, h12, h13⟩ := h
  have hp1 : 1 ≤ p := by
    by_contra hc
    have hp0 : p = 0 := by omega
    subst hp0
    exact absurd (h9.symm.trans hr) (by decide)
  exact ⟨h1, h2, h3, h4, h5, h6, h7, h8, h9, ⟨hp1, hp⟩, h11, h12, h13⟩

theorem InvS_exit (kroot kl2 : Nat) (s : KState) (h : InvS kroot kl2 s) :
    InvS kroot kl2 (free_current_process s s.current) := by
  obtain ⟨h1, h2, h3, h4, h5, h6, h7, h8, h9, h10, h11, h12, h13⟩ := h
  have hspec := free_current_process_spec s s.current
  have hpid : (s.processes s.current).p_pid = ((s.current : Nat) : Int) := h8 s.current h10.2
  have hun : ∀ pn : Nat, pn < NPAGES → (pageinfoAt s pn).owner ≠ ((s.current : Nat) : Int) →
      pageinfoAt (free_current_process s s.current) pn = pageinfoAt s pn := by
    intro pn hpn hne
    have := hspec.2.2.2.2.2.2.1 pn hpn
    rw [hpid] at this
    exact this.trans (exitEntry_other _ _ _ hne)
  have hfr : ∀ pn : Nat, pn < NPAGES → (pageinfoAt s pn).owner = ((s.current : Nat) : Int) →
      pageinfoAt (free_current_process s s.current) pn = ⟨0, 0⟩ := by
    intro pn hpn hown
    have := hspec.2.2.2.2.2.2.1 pn hpn
    rw [hpid] at this
    refine this.trans (exitEntry_own1 _ _ _ hown ?_)
    rcases h11 pn hpn with hfree | hone
    · exfalso
      have ho : (pageinfoAt s pn).owner = 0 := congrArg physical_pageinfo.owner hfree
      have hc1 : 1 ≤ s.current := h10.1
      omega
    · exact hone.1
  have hps : ∀ q : Nat, q ≠ s.current →
      (free_current_process s s.current).processes q = s.processes q := hspec.2.1
  have hl1e : (free_current_process s s.current).l1 = s.l1 := hspec.2.2.1
  have hl2e : (free_current_process s s.current).l2 = s.l2 := hspec.2.2.2.1
  have hcure : (free_current_process s s.current).current = s.current := hspec.2.2.2.2.2.1
  have hko : (pageinfoAt s kroot).owner = -2 := congrArg physical_pageinfo.owner h4
  have hko2 : (pageinfoAt s kl2).owner = -2 := congrArg physical_pageinfo.owner h5
  have hcc : (1 : Int) ≤ ((s.current : Nat) : Int) := by exact_mod_cast h10.1
  refine ⟨h1, h2, h3, ?_, ?_, ?_, ?_, ?_, ?_, ?_, ?_, ?_, ?_⟩
  · rw [hun kroot h1 (by omega)]
    exact h4
  · rw [hun kl2 h2 (by omega)]
    exact h5
  · rw [hl1e]
    exact h6
  · intro j hj h1j
    rw [hl1e]
    exact h7 j hj h1j
  · intro i hi
    by_cases hic : i = s.current
    · rw [hic]
      have := congrArg proc.p_pid hspec.1
      exact this.trans (h8 s.current h10.2)
    · rw [hps i hic]
      exact h8 i hi
  · have h0c : (0 : Nat) ≠ s.current := by omega
    rw [hps 0 h0c]
    exact h9
  · rw [hcure]
    exact h10
  · intro pn hpn
    by_cases how : (pageinfoAt s pn).owner = ((s.current : Nat) : Int)
    · left
      exact hfr pn hpn how
    · rw [hun pn hpn how]
      exact h11 pn hpn
  · intro pn hpn how hrc
    by_cases howc : (pageinfoAt s pn).owner = ((s.current : Nat) : Int)
    · exfalso
      rw [hfr pn hpn howc] at hrc
      exact absurd hrc (by decide)
    · rw [hun pn hpn howc] at how hrc ⊢
      obtain ⟨hlt, hge, hst⟩ := h12 pn hpn how hrc
      refine ⟨hlt, hge, ?_⟩
      have hne : (pageinfoAt s pn).owner.toNat ≠ s.current := by
        intro he
        apply howc
        omega
      rw [hps _ hne]
      exact hst
  · intro i hi hlive
    have hic : i ≠ s.current := by
      intro he
      subst he
      apply hlive
      exact congrArg proc.p_state hspec.1
    rw [hps i hic] at hlive
    have pOK := h13 i hi hlive
    have hine : ((i : Nat) : Int) ≠ ((s.current : Nat) : Int) := by
      intro he
      exact hic (by exact_mod_cast he)
    unfold procOK at pOK ⊢
    rw [hps i hic, hl1e, hl2e]
    obtain ⟨p1, p2, p3, p4, p5, p6, p7, p8, p9, p10, p11⟩ := pOK
    have hr4 : pageinfoAt (free_current_process s s.current)
        (PAGENUMBER ((s.processes i).p_pagetable)) = ⟨(i : Int), 1⟩ := by
      rw [hun _ p3 (by rw [congrArg physical_pageinfo.owner p4]; exact hine)]
      exact p4
    have hr7 : pageinfoAt (free_current_process s s.current)
        (PAGENUMBER (s.l1 (PAGENUMBER ((s.processes i).p_pagetable)) 0)) = ⟨(i : Int), 1⟩ := by
      rw [hun _ p6 (by rw [congrArg physical_pageinfo.owner p7]; exact hine)]
      exact p7
    refine ⟨p1, p2, p3, hr4, p5, p6, hr7, p8, p9, ?_, p11⟩
    intro v hv hv'
    rcases p10 v hv hv' with hz | ⟨dpn, hlt, he, hpg, hne1, hne2⟩
    · left
      exact hz
    · right
      refine ⟨dpn, hlt, he, ?_, hne1, hne2⟩
      rw [hun dpn hlt (by rw [congrArg physical_pageinfo.owner hpg]; exact hine)]
      exact hpg
